import Mathlib

/-!
The reconciliation and synchronisation engine of newrelic-alert-manager.

A shallow embedding of

* `pkg/alert_policies/infrastructure/newrelic/nrql_condition_repository.go`
  (the NRQL condition sync: `getConditions`, `saveConditions`, `deleteConditions`,
  `saveCondition`),
* `pkg/alert_policies/infrastructure/k8s/client.go` (the resource-store client with the
  status-conflict retry and the finalizer updates),
* `pkg/notification_channels/controller/controller.go` (`Reconcile`, `deleteChannel`).

Go functions that talk to a collaborator are embedded as state-passing functions: the
collaborator is a record of functions over an arbitrary state type, and every embedded
function returns the list of calls it issued (with their replies), the final collaborator
state and its Go result. A nil-pointer dereference is a result of its own, distinct from a
returned `error`. The one unbounded recursion, `updateWithRetries`, takes a bound on its
write attempts.

Packages of the repository that are not among the sources (the `domain` packages, the
channel store client, the status constructors) are modelled from the specification; each
such definition says so. The definitions come first, the theorems after them.
-/

set_option autoImplicit false

/-! ## Go errors -/

/-- The `metav1.StatusReason` of an error as far as the code inspects it
(`errors.IsNotFound`, `errors.IsConflict`); every other error has reason `Unknown`. -/
inductive StatusReason where
  | Unknown
  | NotFound
  | Conflict
deriving DecidableEq, Repr

/-- A non-nil Go `error`: its reason and its message (`err.Error()`). -/
structure Error where
  Reason : StatusReason
  Message : String
deriving DecidableEq, Repr

namespace errors

/-- Go `errors.New(text)`: an error that is no API status error. -/
def New (text : String) : Error := ⟨StatusReason.Unknown, text⟩

/-- The apimachinery `errors.IsNotFound`. -/
def IsNotFound (err : Error) : Bool := decide (err.Reason = StatusReason.NotFound)

/-- The apimachinery `errors.IsConflict`. -/
def IsConflict (err : Error) : Bool := decide (err.Reason = StatusReason.Conflict)

end errors

/-- How a Go function call ends when it does not end normally: it returns a non-nil `error`,
it dereferences a nil pointer and the goroutine panics, or (for the recursive retry, which
is embedded with a bound on the recursion depth) it has not returned within the bound. -/
inductive Failure where
  | err (e : Error)
  | nilDereference
  | outOfFuel
deriving DecidableEq, Repr

/-- Equality of Go results is decidable when it is so for errors and values. -/
instance instDecidableEqExcept {ε α : Type} [DecidableEq ε] [DecidableEq α] :
    DecidableEq (Except ε α)
  | Except.ok a, Except.ok b =>
    if h : a = b then isTrue (by rw [h]) else isFalse (fun h2 => h (by cases h2; rfl))
  | Except.error a, Except.error b =>
    if h : a = b then isTrue (by rw [h]) else isFalse (fun h2 => h (by cases h2; rfl))
  | Except.ok _, Except.error _ => isFalse (fun h => by cases h)
  | Except.error _, Except.ok _ => isFalse (fun h => by cases h)

/-- The outcome of running an embedded Go function against a collaborator with state `σ`:
the collaborator calls issued, in order, as events of type `ε`; the collaborator state
afterwards; and the Go result. -/
structure Run (ε : Type) (σ : Type) (α : Type) where
  trace : List ε
  state : σ
  result : Except Failure α

/-! ## Domain model of NRQL conditions -/

namespace domain

/-- Modelled from the spec: the body of `domain.NrqlCondition` (the `domain` package is not
among the sources). `Id` is the optional external identifier (`*int64`, dereferenced by
`saveConditions`); the other fields are the semantic fields the spec names: the query, the
thresholds and the enabled flag. -/
structure NrqlConditionBody where
  Id : Option Int
  Query : String
  Thresholds : List Int
  Enabled : Bool
deriving DecidableEq, Repr

/-- Modelled from the spec: semantic equality of two conditions, "compared by all fields
except `externalId`". -/
def NrqlConditionBody.Equals (a b : NrqlConditionBody) : Bool :=
  decide (a.Query = b.Query) && decide (a.Thresholds = b.Thresholds)
    && decide (a.Enabled = b.Enabled)

/-- The element type of `policy.NrqlConditions`: `saveConditions` reads its `Condition`
field. -/
structure NrqlCondition where
  Condition : NrqlConditionBody
deriving DecidableEq, Repr

/-- The payload decoded by `getConditions`: `saveConditions` ranges over its `Condition`
field. -/
structure NrqlConditionList where
  Condition : List NrqlConditionBody
deriving DecidableEq, Repr

/-- Modelled from the spec: `domain.NrqlConditionSet`, "an unordered collection of Condition
keyed by semantic equality (not by `externalId`), supporting membership testing". -/
structure NrqlConditionSet where
  conditions : List NrqlConditionBody
deriving DecidableEq, Repr

/-- Modelled from the spec: `domain.NewNrqlConditionSet`, the set of the conditions of a
list. -/
def NewNrqlConditionSet (list : NrqlConditionList) : NrqlConditionSet :=
  ⟨list.Condition⟩

/-- Modelled from the spec: `domain.NewNrqlConditionSetFromSlice`, the set of the conditions
of a slice of `NrqlCondition`. -/
def NewNrqlConditionSetFromSlice (slice : List NrqlCondition) : NrqlConditionSet :=
  ⟨slice.map (fun c => c.Condition)⟩

/-- Modelled from the spec: `NrqlConditionSet.Contains`, membership up to semantic
equality. -/
def NrqlConditionSet.Contains (set : NrqlConditionSet) (condition : NrqlConditionBody) : Bool :=
  set.conditions.any (fun member => member.Equals condition)

/-- The `Policy` field of `domain.AlertPolicy`; `saveConditions` dereferences `Id`. -/
structure PolicyBody where
  Id : Option Int
  Name : String
deriving DecidableEq, Repr

/-- The fields of `domain.AlertPolicy` that `saveConditions` reads. The elements of
`NrqlConditions` are non-nil pointers. -/
structure AlertPolicy where
  Policy : PolicyBody
  NrqlConditions : List NrqlCondition
deriving DecidableEq, Repr

end domain

/-! ## The REST client of the external alerting service -/

namespace newrelic

open domain

/-- The three endpoint formats of `nrql_condition_repository.go`, each with the integer its
`%d` is filled with. -/
inductive Endpoint where
  /-- The format `alerts_nrql_conditions.json?policy_id=%d`. -/
  | conditionsOfPolicy (policyId : Int)
  /-- The format `alerts_nrql_conditions/%d.json`. -/
  | condition (conditionId : Int)
  /-- The format `alerts_nrql_conditions/policies/%d.json`. -/
  | conditionsUnderPolicy (policyId : Int)
deriving DecidableEq, Repr

/-- An `*http.Response` as far as the repository reads it: the status code, the body read
as text (`ioutil.ReadAll`), and the result of decoding the body as a `NrqlConditionList`
(`json.NewDecoder(response.Body).Decode`). -/
structure Response where
  StatusCode : Nat
  Body : String
  Decoded : Except Error NrqlConditionList
deriving DecidableEq

/-- What a client method returns: `(*http.Response, error)`, either of which may be nil. -/
structure Reply where
  response : Option Response
  err : Option Error
deriving DecidableEq

/-- A call on `internal.NewrelicClient`. The payload of `PostJson` is the marshalled
condition. -/
inductive Call where
  | Get (endpoint : Endpoint)
  | Delete (endpoint : Endpoint)
  | PostJson (endpoint : Endpoint) (payload : NrqlCondition)
deriving DecidableEq, Repr

/-- One external call together with the reply it got. -/
structure Event where
  call : Call
  reply : Reply
deriving DecidableEq

/-- The `internal.NewrelicClient` collaborator over a state `σ` of the external service. -/
structure NewrelicClient (σ : Type) where
  Get : Endpoint → σ → Reply × σ
  Delete : Endpoint → σ → Reply × σ
  PostJson : Endpoint → NrqlCondition → σ → Reply × σ

variable {σ : Type}

/-- The method `nrqlConditionRepository.getConditions`. -/
def getConditions (client : NewrelicClient σ) (policyId : Int) (s : σ) :
    Run Event σ NrqlConditionList :=
  let endpoint := Endpoint.conditionsOfPolicy policyId
  let out := client.Get endpoint s
  let trace := [Event.mk (Call.Get endpoint) out.1]
  match out.1.err with
  | some err => ⟨trace, out.2, Except.error (Failure.err err)⟩
  | none =>
    match out.1.response with
    | none => ⟨trace, out.2, Except.error Failure.nilDereference⟩
    | some response =>
      match response.Decoded with
      | Except.error err => ⟨trace, out.2, Except.error (Failure.err err)⟩
      | Except.ok conditionList => ⟨trace, out.2, Except.ok conditionList⟩

/-- The method `nrqlConditionRepository.deleteConditions`. -/
def deleteConditions (client : NewrelicClient σ) (conditionId : Int) (s : σ) : Run Event σ Unit :=
  let endpoint := Endpoint.condition conditionId
  let out := client.Delete endpoint s
  let trace := [Event.mk (Call.Delete endpoint) out.1]
  match out.1.err with
  | some err => ⟨trace, out.2, Except.error (Failure.err err)⟩
  | none => ⟨trace, out.2, Except.ok ()⟩

/-- The `response != nil && response.StatusCode >= 300` branch of `saveCondition`: the error
made of the response content, when the branch is taken. -/
def responseError (response : Option Response) : Option Error :=
  match response with
  | some r => if r.StatusCode ≥ 300 then some (errors.New r.Body) else none
  | none => none

/-- The method `nrqlConditionRepository.saveCondition`. Marshalling a condition to JSON
cannot fail, so the `json.Marshal` error branch is not taken. -/
def saveCondition (client : NewrelicClient σ) (policyId : Int) (condition : NrqlCondition)
    (s : σ) : Run Event σ Unit :=
  let endpoint := Endpoint.conditionsUnderPolicy policyId
  let out := client.PostJson endpoint condition s
  let trace := [Event.mk (Call.PostJson endpoint condition) out.1]
  match responseError out.1.response with
  | some err => ⟨trace, out.2, Except.error (Failure.err err)⟩
  | none =>
    match out.1.err with
    | some err => ⟨trace, out.2, Except.error (Failure.err err)⟩
    | none => ⟨trace, out.2, Except.ok ()⟩

/-- The first loop of `saveConditions`: `for _, condition := range
existingConditions.Condition`, skipping the members of `newConditionsSet` and deleting the
others by `*condition.Id`, returning at the first error. -/
def deleteLoop (client : NewrelicClient σ) (newConditionsSet : NrqlConditionSet) :
    List NrqlConditionBody → σ → Run Event σ Unit
  | [], s => ⟨[], s, Except.ok ()⟩
  | condition :: rest, s =>
    if newConditionsSet.Contains condition then
      deleteLoop client newConditionsSet rest s
    else
      match condition.Id with
      | none => ⟨[], s, Except.error Failure.nilDereference⟩
      | some conditionId =>
        let r := deleteConditions client conditionId s
        match r.result with
        | Except.error f => ⟨r.trace, r.state, Except.error f⟩
        | Except.ok _ =>
          let r2 := deleteLoop client newConditionsSet rest r.state
          ⟨r.trace ++ r2.trace, r2.state, r2.result⟩

/-- The second loop of `saveConditions`: `for _, newCondition := range
policy.NrqlConditions`, skipping the members of `existingConditionSet` and creating the
others under the policy, returning at the first error. -/
def createLoop (client : NewrelicClient σ) (policyId : Int)
    (existingConditionSet : NrqlConditionSet) : List NrqlCondition → σ → Run Event σ Unit
  | [], s => ⟨[], s, Except.ok ()⟩
  | newCondition :: rest, s =>
    if existingConditionSet.Contains newCondition.Condition then
      createLoop client policyId existingConditionSet rest s
    else
      let r := saveCondition client policyId newCondition s
      match r.result with
      | Except.error f => ⟨r.trace, r.state, Except.error f⟩
      | Except.ok _ =>
        let r2 := createLoop client policyId existingConditionSet rest r.state
        ⟨r.trace ++ r2.trace, r2.state, r2.result⟩

/-- The method `nrqlConditionRepository.saveConditions`. The tracing span and the log lines
have no effect on the calls or the result and are left out. -/
def saveConditions (client : NewrelicClient σ) (policy : AlertPolicy) (s : σ) : Run Event σ Unit :=
  match policy.Policy.Id with
  | none => ⟨[], s, Except.error Failure.nilDereference⟩
  | some policyId =>
    let r0 := getConditions client policyId s
    match r0.result with
    | Except.error f => ⟨r0.trace, r0.state, Except.error f⟩
    | Except.ok existingConditions =>
      let newConditionsSet := NewNrqlConditionSetFromSlice policy.NrqlConditions
      let r1 := deleteLoop client newConditionsSet existingConditions.Condition r0.state
      match r1.result with
      | Except.error f => ⟨r0.trace ++ r1.trace, r1.state, Except.error f⟩
      | Except.ok _ =>
        let existingConditionSet := NewNrqlConditionSet existingConditions
        let r2 := createLoop client policyId existingConditionSet policy.NrqlConditions
          r1.state
        ⟨r0.trace ++ r1.trace ++ r2.trace, r2.state, r2.result⟩

/-! ### Reading a trace of external calls -/

/-- The error with which an external call failed, as the repository method that issued it
reads the reply: `getConditions` fails on the client error or else on the decoding error,
`deleteConditions` on the client error, `saveCondition` on a response with status 300 or
more (the error then carries the response body) or else on the client error. -/
def Event.failure (ev : Event) : Option Error :=
  match ev.call with
  | Call.Get _ =>
    match ev.reply.err with
    | some err => some err
    | none =>
      match ev.reply.response with
      | some response =>
        match response.Decoded with
        | Except.error err => some err
        | Except.ok _ => none
      | none => none
  | Call.Delete _ => ev.reply.err
  | Call.PostJson _ _ =>
    match responseError ev.reply.response with
    | some err => some err
    | none => ev.reply.err

/-- Whether a call is a delete call. -/
def Call.isDelete : Call → Bool
  | Call.Delete _ => true
  | _ => false

/-- Whether a call is a create call. -/
def Call.isCreate : Call → Bool
  | Call.PostJson _ _ => true
  | _ => false

/-- The delete calls of a trace, in order. -/
def deleteCalls (trace : List Event) : List Call :=
  (trace.map (fun ev => ev.call)).filter Call.isDelete

/-- The create calls of a trace, in order. -/
def createCalls (trace : List Event) : List Call :=
  (trace.map (fun ev => ev.call)).filter Call.isCreate

/-- The delete call that addresses a condition by its own external id, when it has one. -/
def deleteCallFor (condition : NrqlConditionBody) : Option Call :=
  condition.Id.map (fun conditionId => Call.Delete (Endpoint.condition conditionId))

/-- A condition has a semantically-equal counterpart in a list: some member agrees with it
on every field except the external id. -/
def hasCounterpart (conditions : List NrqlConditionBody) (c : NrqlConditionBody) : Prop :=
  ∃ member ∈ conditions, member.Query = c.Query ∧ member.Thresholds = c.Thresholds
    ∧ member.Enabled = c.Enabled

instance instDecidableHasCounterpart (conditions : List NrqlConditionBody)
    (c : NrqlConditionBody) : Decidable (hasCounterpart conditions c) := by
  unfold hasCounterpart
  exact inferInstance

/-- A run stops at the first failed call and returns its error: whichever call of the trace
failed, no call follows it and the result is the error of that call. -/
def AbortsAtFailure {σ α : Type} (run : Run Event σ α) : Prop :=
  ∀ (before after : List Event) (ev : Event) (e : Error),
    run.trace = before ++ ev :: after → ev.failure = some e →
      after = [] ∧ run.result = Except.error (Failure.err e)

/-! ### An external store -/

/-- The state of an external alerting service that keeps what it is told: the stored
conditions, each with the id of the policy it was created under, and the next unused
condition id. -/
structure Store where
  entries : List (Int × NrqlConditionBody)
  nextId : Int
deriving DecidableEq, Repr

/-- The conditions the store holds for a policy. -/
def Store.conditionsOf (store : Store) (policyId : Int) : List NrqlConditionBody :=
  (store.entries.filter (fun entry => decide (entry.1 = policyId))).map (fun entry => entry.2)

/-- Every stored condition carries an id below the next unused one, and no two stored
conditions share an id: the state of a store all of whose conditions were created under
fresh ids. -/
def Store.WellFormed (store : Store) : Prop :=
  (∀ entry ∈ store.entries, ∃ conditionId, entry.2.Id = some conditionId
      ∧ conditionId < store.nextId)
    ∧ (store.entries.map (fun entry => entry.2.Id)).Nodup

/-- A reply with a status code and no error. -/
def okReply (status : Nat) (decoded : Except Error NrqlConditionList) : Reply :=
  ⟨some ⟨status, "", decoded⟩, none⟩

/-- The reply to a call on an endpoint the method does not serve. -/
def notFoundReply : Reply :=
  ⟨some ⟨404, "not found", Except.error (errors.New "unexpected end of JSON input")⟩,
    some (errors.New "not found")⟩

/-- An external store that answers every list call with the stored conditions of the policy,
removes each deleted condition, and stores each created condition under a fresh id. -/
def storeClient : NewrelicClient Store where
  Get := fun endpoint store =>
    match endpoint with
    | Endpoint.conditionsOfPolicy policyId =>
      (okReply 200 (Except.ok ⟨store.conditionsOf policyId⟩), store)
    | _ => (notFoundReply, store)
  Delete := fun endpoint store =>
    match endpoint with
    | Endpoint.condition conditionId =>
      (okReply 200 (Except.error (errors.New "not a condition list")),
        { store with
          entries := store.entries.filter (fun entry => !decide (entry.2.Id = some conditionId)) })
    | _ => (notFoundReply, store)
  PostJson := fun endpoint payload store =>
    match endpoint with
    | Endpoint.conditionsUnderPolicy policyId =>
      (okReply 201 (Except.error (errors.New "not a condition list")),
        { entries := store.entries ++
            [(policyId, { payload.Condition with Id := some store.nextId })],
          nextId := store.nextId + 1 })
    | _ => (notFoundReply, store)

/-- An external service that lists and creates like `storeClient` but rejects every delete
call with an error, leaving its state as it was. -/
def brokenDeleteClient : NewrelicClient Store where
  Get := storeClient.Get
  Delete := fun _ store => (⟨none, some (errors.New "delete refused")⟩, store)
  PostJson := storeClient.PostJson

/-! ### A worked example -/

/-- A desired condition on CPU usage, not yet synced (no external id). -/
def cpuCondition : NrqlConditionBody := ⟨none, "cpu", [80], true⟩

/-- A desired condition on memory usage, not yet synced (no external id). -/
def memCondition : NrqlConditionBody := ⟨none, "mem", [90], true⟩

/-- A policy with external id 5 that wants the CPU condition (twice) and the memory
condition. -/
def examplePolicy : AlertPolicy :=
  ⟨⟨some 5, "example"⟩, [⟨cpuCondition⟩, ⟨memCondition⟩, ⟨cpuCondition⟩]⟩

/-- The external conditions of policy 5 in `exampleStore`: the memory condition under id 1
and a disk condition under id 2. -/
def exampleExternal : List NrqlConditionBody :=
  [{ memCondition with Id := some 1 }, ⟨some 2, "disk", [1], false⟩]

/-- An external store holding `exampleExternal` for policy 5 and the CPU condition for
policy 6. -/
def exampleStore : Store :=
  ⟨[(5, { memCondition with Id := some 1 }), (5, ⟨some 2, "disk", [1], false⟩),
    (6, { cpuCondition with Id := some 3 })], 4⟩

/-- A policy with external id 5 whose desired conditions are those of `exampleExternal`, in
another order, with a duplicate and without external ids. -/
def syncedPolicy : AlertPolicy :=
  ⟨⟨some 5, "example"⟩, [⟨⟨none, "disk", [1], false⟩⟩, ⟨memCondition⟩, ⟨memCondition⟩]⟩

end newrelic

/-! ## The resource store client (`pkg/alert_policies/infrastructure/k8s/client.go`) -/

namespace types

/-- The key `types.NamespacedName` of a resource. -/
structure NamespacedName where
  Namespace : String
  Name : String
deriving DecidableEq, Repr

end types

namespace metav1

/-- The fields of `metav1.ObjectMeta` that the code reads or writes. The resource version is
the version token the store compares on a write. -/
structure ObjectMeta where
  Name : String
  Namespace : String
  ResourceVersion : Nat
  Finalizers : List String
  DeletionTimestamp : Option Nat
deriving DecidableEq, Repr

end metav1

namespace v1alpha1

/-- A custom resource as the generated deep-copy code shows it: object metadata, a spec and
a status (`AlertPolicy`, `SlackNotificationChannel` and `EmailNotificationChannel` all have
this shape). -/
structure Object (S T : Type) where
  ObjectMeta : metav1.ObjectMeta
  Spec : S
  Status : T
deriving DecidableEq, Repr

/-- The spec of an alert policy: its condition slices (`NrqlConditions`, `ApmConditions`,
`InfraConditions` in the deep-copy code), kept as text since the store client never looks
into a spec. -/
structure AlertPolicySpec where
  NrqlConditions : List String
  ApmConditions : List String
  InfraConditions : List String
deriving DecidableEq, Repr

/-- Modelled from the spec: the status of an alert policy. `NewrelicPolicyId` is the
external id (`*int64` in the deep-copy code); the state and the last error are the status
fields the spec names. -/
structure AlertPolicyStatus where
  State : String
  NewrelicPolicyId : Option Int
  LastError : Option String
deriving DecidableEq, Repr

/-- The resource `v1alpha1.AlertPolicy`. -/
abbrev AlertPolicy := Object AlertPolicySpec AlertPolicyStatus

end v1alpha1

namespace client_go

open types

/-- The controller-runtime `client.Client` collaborator over a store state `σ`, for objects
of type `O`: `Get`, `Update` and `Status().Update`. A write returns its error (nil on
success) and the object as the call leaves it (the client stores the answer of the server
into the object it was given). -/
structure Client (O σ : Type) where
  Get : NamespacedName → σ → Except Error O × σ
  Update : O → σ → (Option Error × O) × σ
  StatusUpdate : O → σ → (Option Error × O) × σ

/-- A call on the store client, with the key or the object it is given. -/
inductive Call (O : Type) where
  | Get (key : NamespacedName)
  | Update (obj : O)
  | StatusUpdate (obj : O)
deriving DecidableEq, Repr

/-- One store call together with the error it returned (`none` for nil). -/
structure Event (O : Type) where
  call : Call O
  err : Option Error
deriving DecidableEq, Repr

end client_go

namespace k8s

open types v1alpha1 client_go

variable {S T σ : Type}

/-- The method `Client.GetPolicy`. -/
def GetPolicy (c : Client (Object S T) σ) (name : NamespacedName) (s : σ) :
    Run (Event (Object S T)) σ (Object S T) :=
  let out := c.Get name s
  match out.1 with
  | Except.error err => ⟨[⟨Call.Get name, some err⟩], out.2, Except.error (Failure.err err)⟩
  | Except.ok found => ⟨[⟨Call.Get name, none⟩], out.2, Except.ok found⟩

/-- The method `Client.DeletePolicy`: the policy is passed by value, its finalizers are
emptied and it is sent to the store. -/
def DeletePolicy (c : Client (Object S T) σ) (policy : Object S T) (s : σ) :
    Run (Event (Object S T)) σ Unit :=
  let policy := { policy with ObjectMeta := { policy.ObjectMeta with Finalizers := [] } }
  let out := c.Update policy s
  match out.1.1 with
  | some err => ⟨[⟨Call.Update policy, some err⟩], out.2, Except.error (Failure.err err)⟩
  | none => ⟨[⟨Call.Update policy, none⟩], out.2, Except.ok ()⟩

/-- The method `Client.updateWithRetries`. The Go recursion has no bound; the embedding
takes the number of write attempts it may make and ends with `outOfFuel` when the attempts
are used up. On success the value is the object of the caller as the first attempt left it
(a retry writes through `serverPolicy`, which the caller does not see). -/
def updateWithRetries (c : Client (Object S T) σ) :
    Nat → NamespacedName → Object S T → σ → Run (Event (Object S T)) σ (Object S T)
  | 0, _, _, s => ⟨[], s, Except.error Failure.outOfFuel⟩
  | fuel + 1, key, policy, s =>
    let out := c.StatusUpdate policy s
    match out.1.1 with
    | some err =>
      if errors.IsConflict err then
        let fetched := GetPolicy c key out.2
        match fetched.result with
        | Except.error f =>
          ⟨⟨Call.StatusUpdate policy, some err⟩ :: fetched.trace, fetched.state, Except.error f⟩
        | Except.ok serverPolicy =>
          let serverPolicy := { serverPolicy with Status := policy.Status }
          let retry := updateWithRetries c fuel key serverPolicy fetched.state
          ⟨⟨Call.StatusUpdate policy, some err⟩ :: (fetched.trace ++ retry.trace), retry.state,
            match retry.result with
            | Except.error f => Except.error f
            | Except.ok _ => Except.ok out.1.2⟩
      else
        ⟨[⟨Call.StatusUpdate policy, some err⟩], out.2, Except.error (Failure.err err)⟩
    | none => ⟨[⟨Call.StatusUpdate policy, none⟩], out.2, Except.ok out.1.2⟩

/-- The method `Client.UpdatePolicyStatus`, with the bound on the write attempts of
`updateWithRetries`. -/
def UpdatePolicyStatus (c : Client (Object S T) σ) (fuel : Nat) (policy : Object S T) (s : σ) :
    Run (Event (Object S T)) σ (Object S T) :=
  let key : NamespacedName :=
    { Namespace := policy.ObjectMeta.Namespace, Name := policy.ObjectMeta.Name }
  updateWithRetries c fuel key policy s

/-- The method `Client.SetFinalizer`: the policy is passed by value, its finalizers are set
to the one marker `newrelic` and it is sent to the store; any error, a conflict included, is
returned. -/
def SetFinalizer (c : Client (Object S T) σ) (policy : Object S T) (s : σ) :
    Run (Event (Object S T)) σ Unit :=
  let policy :=
    { policy with ObjectMeta := { policy.ObjectMeta with Finalizers := ["newrelic"] } }
  let out := c.Update policy s
  match out.1.1 with
  | some err => ⟨[⟨Call.Update policy, some err⟩], out.2, Except.error (Failure.err err)⟩
  | none => ⟨[⟨Call.Update policy, none⟩], out.2, Except.ok ()⟩

end k8s

/-! ## The resource store -/

namespace apiserver

open types v1alpha1 client_go

/-- An accepted write as the store records it: whether it came through the status
subresource, the object that was sent, and the resource state the store holds after it. -/
structure Write (S T : Type) where
  status : Bool
  sent : Object S T
  stored : Object S T
deriving DecidableEq, Repr

/-- Modelled from the spec: the state of the resource store collaborator for one resource
identity (the store itself is the hosting system, not part of the repository). It holds the
resource, if it exists; a script of transient failures, one entry per call (an entry
`some err` makes the call fail with `err` and change nothing); and the record of the writes
it accepted, oldest first. -/
structure ApiServer (S T : Type) where
  stored : Option (Object S T)
  faults : List (Option Error)
  written : List (Write S T)
deriving DecidableEq, Repr

/-- The error of the store for a resource that does not exist. -/
def notFound : Error := ⟨StatusReason.NotFound, "not found"⟩

/-- The error of the store for a write that carries a stale resource version. -/
def conflict : Error := ⟨StatusReason.Conflict, "the object has been modified"⟩

variable {S T : Type}

/-- Whether an object names the identity of a stored resource. -/
def sameIdentity (cur obj : Object S T) : Bool :=
  decide (cur.ObjectMeta.Namespace = obj.ObjectMeta.Namespace) &&
    decide (cur.ObjectMeta.Name = obj.ObjectMeta.Name)

/-- Modelled from the spec: `get(identity) -> resource | NotFound`. -/
def get (key : NamespacedName) (srv : ApiServer S T) : Except Error (Object S T) × ApiServer S T :=
  match srv.faults with
  | some err :: rest => (Except.error err, { srv with faults := rest })
  | faults =>
    match srv.stored with
    | some cur =>
      if cur.ObjectMeta.Namespace = key.Namespace ∧ cur.ObjectMeta.Name = key.Name then
        (Except.ok cur, { srv with faults := faults.tail })
      else (Except.error notFound, { srv with faults := faults.tail })
    | none => (Except.error notFound, { srv with faults := faults.tail })

/-- Modelled from the spec: `update(resource) -> error | Conflict`, "keyed by identity plus
an implicit version token carried on the resource object used to detect conflicts". An
accepted update replaces the finalizers and the spec of the resource; the status is written
through the status subresource only. -/
def update (obj : Object S T) (srv : ApiServer S T) :
    (Option Error × Object S T) × ApiServer S T :=
  match srv.faults with
  | some err :: rest => ((some err, obj), { srv with faults := rest })
  | faults =>
    match srv.stored with
    | some cur =>
      if sameIdentity cur obj then
        if obj.ObjectMeta.ResourceVersion = cur.ObjectMeta.ResourceVersion then
          let next : Object S T :=
            { ObjectMeta :=
                { cur.ObjectMeta with
                  Finalizers := obj.ObjectMeta.Finalizers,
                  ResourceVersion := cur.ObjectMeta.ResourceVersion + 1 },
              Spec := obj.Spec,
              Status := cur.Status }
          ((none, next),
            { stored := some next, faults := faults.tail,
              written := srv.written ++ [⟨false, obj, next⟩] })
        else ((some conflict, obj), { srv with faults := faults.tail })
      else ((some notFound, obj), { srv with faults := faults.tail })
    | none => ((some notFound, obj), { srv with faults := faults.tail })

/-- Modelled from the spec: `updateStatus(resource) -> error | Conflict`. An accepted write
replaces the status of the resource and nothing else. -/
def updateStatus (obj : Object S T) (srv : ApiServer S T) :
    (Option Error × Object S T) × ApiServer S T :=
  match srv.faults with
  | some err :: rest => ((some err, obj), { srv with faults := rest })
  | faults =>
    match srv.stored with
    | some cur =>
      if sameIdentity cur obj then
        if obj.ObjectMeta.ResourceVersion = cur.ObjectMeta.ResourceVersion then
          let next : Object S T :=
            { ObjectMeta :=
                { cur.ObjectMeta with ResourceVersion := cur.ObjectMeta.ResourceVersion + 1 },
              Spec := cur.Spec,
              Status := obj.Status }
          ((none, next),
            { stored := some next, faults := faults.tail,
              written := srv.written ++ [⟨true, obj, next⟩] })
        else ((some conflict, obj), { srv with faults := faults.tail })
      else ((some notFound, obj), { srv with faults := faults.tail })
    | none => ((some notFound, obj), { srv with faults := faults.tail })

/-- The store as the `client.Client` collaborator of the store client. -/
def client : Client (Object S T) (ApiServer S T) where
  Get := get
  Update := update
  StatusUpdate := updateStatus

/-- The hosting system requests the deletion of the resource: it sets the deletion
timestamp. -/
def requestDeletion (time : Nat) (srv : ApiServer S T) : ApiServer S T :=
  match srv.stored with
  | some cur =>
    { srv with
      stored := some
        { cur with
          ObjectMeta :=
            { cur.ObjectMeta with
              DeletionTimestamp := some time,
              ResourceVersion := cur.ObjectMeta.ResourceVersion + 1 } } }
  | none => srv

/-- The hosting system removes a resource whose deletion was requested once it carries no
finalizer. -/
def remove (srv : ApiServer S T) : ApiServer S T :=
  match srv.stored with
  | some cur =>
    if cur.ObjectMeta.DeletionTimestamp.isSome ∧ cur.ObjectMeta.Finalizers = [] then
      { srv with stored := none }
    else srv
  | none => srv

end apiserver

/-! ### A worked example of the store client -/

namespace k8s

open v1alpha1 apiserver

/-- The alert policy `default/cpu-alerts` as the store holds it: resource version 2, one
NRQL condition, status not yet written. -/
def serverPolicy : AlertPolicy :=
  { ObjectMeta :=
      { Name := "cpu-alerts", Namespace := "default", ResourceVersion := 2,
        Finalizers := ["newrelic"], DeletionTimestamp := none },
    Spec := { NrqlConditions := ["cpu > 80"], ApmConditions := [], InfraConditions := [] },
    Status := { State := "", NewrelicPolicyId := none, LastError := none } }

/-- The same policy as a reconcile read it earlier (resource version 1, no condition yet,
no finalizer), with the status the reconcile wants to write. -/
def stalePolicy : AlertPolicy :=
  { ObjectMeta :=
      { Name := "cpu-alerts", Namespace := "default", ResourceVersion := 1,
        Finalizers := [], DeletionTimestamp := none },
    Spec := { NrqlConditions := [], ApmConditions := [], InfraConditions := [] },
    Status := { State := "Ready", NewrelicPolicyId := some 42, LastError := none } }

/-- A store holding `serverPolicy`, with no transient failure scripted. -/
def exampleServer : ApiServer AlertPolicySpec AlertPolicyStatus :=
  { stored := some serverPolicy, faults := [], written := [] }

/-- A store holding `serverPolicy` whose next call fails with an internal error. -/
def failingServer : ApiServer AlertPolicySpec AlertPolicyStatus :=
  { stored := some serverPolicy, faults := [some (errors.New "etcd unavailable")],
    written := [] }

end k8s

/-! ## The notification channel controller
(`pkg/notification_channels/controller/controller.go`) -/

namespace domain

/-- Modelled from the spec: the configuration of a channel of the `domain` package of the
notification channels (not among the sources): the delivery settings, and the config version
last applied, which `Reconcile` stores into `PreviousVersion`. -/
structure Configuration where
  Settings : String
  PreviousVersion : String
deriving DecidableEq, Repr

/-- Modelled from the spec: `Configuration.Version()`, "a hash or generation number over the
spec"; the hash of the settings is taken to be the settings text itself. -/
def Configuration.Version (c : Configuration) : String := c.Settings

/-- Modelled from the spec: the `Channel` field of `domain.NotificationChannel`, with the
optional external id `Id` and the configuration, the two fields `Reconcile` reads. -/
structure ChannelBody where
  Id : Option Int
  Name : String
  Configuration : Configuration
deriving DecidableEq, Repr

/-- Modelled from the spec: `domain.NotificationChannel`, the desired external shape of a
channel: the channel itself and the external ids of the policies it applies to. -/
structure NotificationChannel where
  Channel : ChannelBody
  PolicyIds : List Int
deriving DecidableEq, Repr

end domain

namespace v1alpha1

/-- The spec of a notification channel: the policy selector (a label set, as in the
deep-copy code of `SlackNotificationChannelSpec` and `EmailNotificationChannelSpec`) and the
delivery settings. -/
structure NotificationChannelSpec where
  PolicySelector : List (String × String)
  Settings : String
deriving DecidableEq, Repr

/-- Modelled from the spec: `NotificationChannelStatus`. `NewrelicChannelId` (`*int64` in
the deep-copy code) is the external id and `NewrelicConfigVersion` the config version
`Reconcile` reads; the state and the last error are the status fields the spec names. -/
structure NotificationChannelStatus where
  State : String
  NewrelicChannelId : Option Int
  NewrelicConfigVersion : String
  LastError : Option String
deriving DecidableEq, Repr

/-- The resource behind the interface `v1alpha1.NotificationChannel`. -/
abbrev NotificationChannel := Object NotificationChannelSpec NotificationChannelStatus

/-- The list `v1alpha1.AlertPolicyList` (its `Items`). -/
structure AlertPolicyList where
  Items : List AlertPolicy
deriving DecidableEq, Repr

/-- Modelled from the spec: `NewChannelPending`, "status to Pending with the resource's
current externalId and computed config version". -/
def NewChannelPending (channelId : Option Int) (configVersion : String) :
    NotificationChannelStatus :=
  { State := "Pending", NewrelicChannelId := channelId,
    NewrelicConfigVersion := configVersion, LastError := none }

/-- Modelled from the spec: `NewChannelReady`, "status to Ready with the externalId and
config version". -/
def NewChannelReady (channelId : Option Int) (configVersion : String) :
    NotificationChannelStatus :=
  { State := "Ready", NewrelicChannelId := channelId,
    NewrelicConfigVersion := configVersion, LastError := none }

/-- Modelled from the spec: `NewChannelError`, "status to Error with the error detail". -/
def NewChannelError (channelId : Option Int) (err : Error) : NotificationChannelStatus :=
  { State := "Error", NewrelicChannelId := channelId,
    NewrelicConfigVersion := "", LastError := some err.Message }

/-- Modelled from the spec: `IsDeleted`, "`deletionTimestamp` is set and the finalizer is
present". -/
def IsDeleted (channel : NotificationChannel) : Bool :=
  channel.ObjectMeta.DeletionTimestamp.isSome &&
    decide ("newrelic" ∈ channel.ObjectMeta.Finalizers)

/-- The method `GetStatus` of a notification channel. -/
def GetStatus (channel : NotificationChannel) : NotificationChannelStatus := channel.Status

/-- The method `SetStatus` of a notification channel. -/
def SetStatus (channel : NotificationChannel) (status : NotificationChannelStatus) :
    NotificationChannel :=
  { channel with Status := status }

/-- Modelled from the spec: the method `NewChannel`, the desired external shape of the
channel: its id is the external id of the status ("the resource's current externalId"), its
configuration the delivery settings of the spec, its policies those selected that exist
externally. -/
def NewChannel (channel : NotificationChannel) (policies : AlertPolicyList) :
    domain.NotificationChannel :=
  { Channel :=
      { Id := channel.Status.NewrelicChannelId,
        Name := channel.ObjectMeta.Name,
        Configuration := { Settings := channel.Spec.Settings, PreviousVersion := "" } },
    PolicyIds := policies.Items.filterMap (fun policy => policy.Status.NewrelicPolicyId) }

end v1alpha1

namespace reconcile

/-- The request `reconcile.Request`: the identity of the resource to reconcile. -/
structure Request where
  NamespacedName : types.NamespacedName
deriving DecidableEq, Repr

/-- The result `reconcile.Result`. -/
structure Result where
  Requeue : Bool
deriving DecidableEq, Repr

end reconcile

namespace controller

open types v1alpha1

/-- The collaborator `*k8s.Client` of the notification channels (package
`notification_channels/infrastructure/k8s`, not among the sources) over a state `σ`: the
methods `Reconcile` calls. Each returns how it ended; `SetFinalizer` and
`UpdateChannelStatus`, which are given the instance the controller goes on using, return it
as they leave it. -/
structure K8sClient (σ : Type) where
  GetChannel : NamespacedName → σ → Except Failure NotificationChannel × σ
  GetPolicies : NotificationChannel → σ → Except Failure AlertPolicyList × σ
  SetFinalizer : NotificationChannel → σ → Except Failure NotificationChannel × σ
  UpdateChannelStatus : NotificationChannel → σ → Except Failure NotificationChannel × σ
  DeleteChannel : NotificationChannel → σ → Except Failure Unit × σ

/-- The collaborator `*newrelic.ChannelRepository` (not among the sources) over a state `σ`.
`Save` is given a pointer to the channel and returns, with how it ended, the channel as it
leaves it (the external id is assigned by the external service). -/
structure ChannelRepository (σ : Type) where
  Save : domain.NotificationChannel → σ → (Except Failure Unit × domain.NotificationChannel) × σ
  Delete : domain.NotificationChannel → σ → Except Failure Unit × σ

/-- A call of `Reconcile` on one of its collaborators, with its argument. -/
inductive Call where
  | GetChannel (name : NamespacedName)
  | GetPolicies (channel : NotificationChannel)
  | SetFinalizer (channel : NotificationChannel)
  | UpdateChannelStatus (channel : NotificationChannel)
  | DeleteChannel (channel : NotificationChannel)
  | Save (channel : domain.NotificationChannel)
  | Delete (channel : domain.NotificationChannel)
deriving DecidableEq, Repr

/-- One collaborator call together with how it ended (`none` for a nil error). -/
structure Event where
  call : Call
  failure : Option Failure
deriving DecidableEq, Repr

/-- How a collaborator call ended, for the trace. -/
def failureOf {α : Type} (r : Except Failure α) : Option Failure :=
  match r with
  | Except.error f => some f
  | Except.ok _ => none

/-- Modelled from the spec: `internal.NewReconcileResult` (the `internal` package is not
among the sources): the pair `(reconcile.Result{}, err)`; "`requeue=false, error=nil` means
converged; any error implies the caller should re-invoke later". -/
def NewReconcileResult (err : Option Error) : Except Failure reconcile.Result :=
  match err with
  | none => Except.ok { Requeue := false }
  | some e => Except.error (Failure.err e)

variable {σ : Type}

/-- The method `Reconcile.deleteChannel`. -/
def deleteChannel (k8s : K8sClient σ) (newrelic : ChannelRepository σ)
    (channel : domain.NotificationChannel) (inst : NotificationChannel) (s : σ) :
    Run Event σ reconcile.Result :=
  let deleted := newrelic.Delete channel s
  let ev1 : Event := ⟨Call.Delete channel, failureOf deleted.1⟩
  match deleted.1 with
  | Except.error f => ⟨[ev1], deleted.2, Except.error f⟩
  | Except.ok _ =>
    let cleared := k8s.DeleteChannel inst deleted.2
    let ev2 : Event := ⟨Call.DeleteChannel inst, failureOf cleared.1⟩
    match cleared.1 with
    | Except.error f => ⟨[ev1, ev2], cleared.2, Except.error f⟩
    | Except.ok _ => ⟨[ev1, ev2], cleared.2, Except.ok { Requeue := false }⟩

/-- The `else` branch of `Reconcile.Reconcile`, for a resource that is not being deleted:
set the finalizer, write the status Pending, save the channel externally, write the status
Error or Ready. -/
def saveChannel (k8s : K8sClient σ) (newrelic : ChannelRepository σ)
    (channel : domain.NotificationChannel) (inst : NotificationChannel) (s : σ) :
    Run Event σ reconcile.Result :=
  let fin := k8s.SetFinalizer inst s
  let ev1 : Event := ⟨Call.SetFinalizer inst, failureOf fin.1⟩
  match fin.1 with
  | Except.error f => ⟨[ev1], fin.2, Except.error f⟩
  | Except.ok inst1 =>
    let configVersion := channel.Channel.Configuration.Version
    let pending := SetStatus inst1 (NewChannelPending channel.Channel.Id configVersion)
    let up := k8s.UpdateChannelStatus pending fin.2
    let ev2 : Event := ⟨Call.UpdateChannelStatus pending, failureOf up.1⟩
    match up.1 with
    | Except.error f => ⟨[ev1, ev2], up.2, Except.error f⟩
    | Except.ok inst2 =>
      let saved := newrelic.Save channel up.2
      let ev3 : Event := ⟨Call.Save channel, failureOf saved.1.1⟩
      let channel2 := saved.1.2
      match saved.1.1 with
      | Except.error (Failure.err err) =>
        let failed := SetStatus inst2 (NewChannelError channel2.Channel.Id err)
        let up2 := k8s.UpdateChannelStatus failed saved.2
        let ev4 : Event := ⟨Call.UpdateChannelStatus failed, failureOf up2.1⟩
        match up2.1 with
        | Except.error f => ⟨[ev1, ev2, ev3, ev4], up2.2, Except.error f⟩
        | Except.ok _ => ⟨[ev1, ev2, ev3, ev4], up2.2, NewReconcileResult (some err)⟩
      | Except.error f => ⟨[ev1, ev2, ev3], saved.2, Except.error f⟩
      | Except.ok _ =>
        let ready := SetStatus inst2 (NewChannelReady channel2.Channel.Id configVersion)
        let up3 := k8s.UpdateChannelStatus ready saved.2
        let ev4 : Event := ⟨Call.UpdateChannelStatus ready, failureOf up3.1⟩
        match up3.1 with
        | Except.error f => ⟨[ev1, ev2, ev3, ev4], up3.2, Except.error f⟩
        | Except.ok _ => ⟨[ev1, ev2, ev3, ev4], up3.2, NewReconcileResult none⟩

/-- The method `Reconcile.Reconcile`. A collaborator call that ends otherwise than by
returning (a panic, a recursion that does not return) ends the reconcile the same way. -/
def Reconcile (k8s : K8sClient σ) (newrelic : ChannelRepository σ)
    (request : reconcile.Request) (s : σ) : Run Event σ reconcile.Result :=
  let got := k8s.GetChannel request.NamespacedName s
  let ev1 : Event := ⟨Call.GetChannel request.NamespacedName, failureOf got.1⟩
  match got.1 with
  | Except.error (Failure.err err) =>
    if errors.IsNotFound err then ⟨[ev1], got.2, NewReconcileResult none⟩
    else ⟨[ev1], got.2, NewReconcileResult (some err)⟩
  | Except.error f => ⟨[ev1], got.2, Except.error f⟩
  | Except.ok inst =>
    let selected := k8s.GetPolicies inst got.2
    let ev2 : Event := ⟨Call.GetPolicies inst, failureOf selected.1⟩
    match selected.1 with
    | Except.error f => ⟨[ev1, ev2], selected.2, Except.error f⟩
    | Except.ok policies =>
      let built := NewChannel inst policies
      let channel : domain.NotificationChannel :=
        { built with
          Channel :=
            { built.Channel with
              Configuration :=
                { built.Channel.Configuration with
                  PreviousVersion := (GetStatus inst).NewrelicConfigVersion } } }
      if IsDeleted inst then
        let r := deleteChannel k8s newrelic channel inst selected.2
        ⟨ev1 :: ev2 :: r.trace, r.state, r.result⟩
      else
        let r := saveChannel k8s newrelic channel inst selected.2
        ⟨ev1 :: ev2 :: r.trace, r.state, r.result⟩

end controller

/-! ## The controller against the resource store -/

namespace controller

open types v1alpha1 apiserver

/-- The state the controller works against: the resource store, holding the notification
channel; the alert policies its selector selects; and the state of the external alerting
service. -/
structure World (σn : Type) where
  server : ApiServer NotificationChannelSpec NotificationChannelStatus
  policies : AlertPolicyList
  external : σn
deriving DecidableEq, Repr

variable {σn : Type}

/-- Modelled from the spec: the store client of the notification channels (package
`notification_channels/infrastructure/k8s`, not among the sources), taken to be the
alert-policy client of `client.go` at the channel type: `GetChannel` is `GetPolicy`,
`SetFinalizer` is `SetFinalizer` (by value: the instance of the caller is left as it was),
`UpdateChannelStatus` is `UpdatePolicyStatus` (the status updater, here with `fuel` write
attempts) and `DeleteChannel` is `DeletePolicy`. `GetPolicies` recomputes the selection and
touches nothing. -/
def channelClient (fuel : Nat) : K8sClient (World σn) where
  GetChannel := fun name w =>
    let r := k8s.GetPolicy apiserver.client name w.server
    (r.result, { w with server := r.state })
  GetPolicies := fun _ w => (Except.ok w.policies, w)
  SetFinalizer := fun inst w =>
    let r := k8s.SetFinalizer apiserver.client inst w.server
    (match r.result with
      | Except.error f => Except.error f
      | Except.ok _ => Except.ok inst,
      { w with server := r.state })
  UpdateChannelStatus := fun inst w =>
    let r := k8s.UpdatePolicyStatus apiserver.client fuel inst w.server
    (r.result, { w with server := r.state })
  DeleteChannel := fun inst w =>
    let r := k8s.DeletePolicy apiserver.client inst w.server
    (r.result, { w with server := r.state })

/-- An external channel repository acting on the external part of the world. -/
def externalRepository (repo : ChannelRepository σn) : ChannelRepository (World σn) where
  Save := fun channel w =>
    let r := repo.Save channel w.external
    (r.1, { w with external := r.2 })
  Delete := fun channel w =>
    let r := repo.Delete channel w.external
    (r.1, { w with external := r.2 })

/-- What happens to a resource between and during reconciles: a `Reconcile` invocation, the
hosting system requesting the deletion, the hosting system removing the resource. -/
inductive Step where
  | reconcile
  | requestDeletion (time : Nat)
  | remove
deriving DecidableEq, Repr

/-- One step on the world. -/
def step (repo : ChannelRepository σn) (fuel : Nat) (request : reconcile.Request) :
    Step → World σn → World σn
  | Step.reconcile, w =>
    (Reconcile (channelClient fuel) (externalRepository repo) request w).state
  | Step.requestDeletion time, w => { w with server := requestDeletion time w.server }
  | Step.remove, w => { w with server := remove w.server }

/-- A sequence of steps on the world, in order. -/
def runSteps (repo : ChannelRepository σn) (fuel : Nat) (request : reconcile.Request)
    (steps : List Step) (w : World σn) : World σn :=
  steps.foldl (fun world st => step repo fuel request st world) w

/-- The marker of the system is among the finalizers of a resource. -/
def hasFinalizer (channel : NotificationChannel) : Prop :=
  "newrelic" ∈ channel.ObjectMeta.Finalizers

instance instDecidableHasFinalizer (channel : NotificationChannel) :
    Decidable (hasFinalizer channel) := by
  unfold hasFinalizer
  exact inferInstance

/-! ### The finalizer invariant on the record of writes -/

/-- A recorded write keeps the finalizer invariant: a status write, and an update that sends
the marker (the finalizer-setting update), leave a resource that carries the marker; every
other update is the finalizer-clearing update, which sends no finalizer at all. -/
def WriteKeepsFinalizer
    (wr : Write NotificationChannelSpec NotificationChannelStatus) : Prop :=
  (wr.status = true ∨ wr.sent.ObjectMeta.Finalizers = ["newrelic"] → hasFinalizer wr.stored) ∧
    (wr.status = false →
      wr.sent.ObjectMeta.Finalizers = ["newrelic"] ∨ wr.sent.ObjectMeta.Finalizers = [])

/-- Every write the store has recorded keeps the finalizer invariant. -/
def LogKeepsFinalizer
    (srv : ApiServer NotificationChannelSpec NotificationChannelStatus) : Prop :=
  ∀ wr ∈ srv.written, WriteKeepsFinalizer wr

/-- The resource the store holds, if any, carries the marker. -/
def StoredHasFinalizer
    (srv : ApiServer NotificationChannelSpec NotificationChannelStatus) : Prop :=
  ∀ cur, srv.stored = some cur → hasFinalizer cur

/-! ### A worked example of the controller -/

/-- An external service that creates a channel under id 7 when it has no id yet and keeps
its id otherwise, and deletes without failing. -/
def assigningRepository : ChannelRepository Unit where
  Save := fun channel u =>
    ((Except.ok (),
      { channel with Channel := { channel.Channel with Id := some (channel.Channel.Id.getD 7) } }),
      u)
  Delete := fun _ u => (Except.ok (), u)

/-- An external service that is down: every call fails. -/
def unavailableRepository : ChannelRepository Unit where
  Save := fun channel u =>
    ((Except.error (Failure.err (errors.New "service unavailable")), channel), u)
  Delete := fun _ u => (Except.error (Failure.err (errors.New "service unavailable")), u)

/-- The request for the channel `default/slack`. -/
def exampleRequest : reconcile.Request := ⟨⟨"default", "slack"⟩⟩

/-- The channel `default/slack` as the user created it: no finalizer, empty status. -/
def newChannel : NotificationChannel :=
  { ObjectMeta :=
      { Name := "slack", Namespace := "default", ResourceVersion := 1, Finalizers := [],
        DeletionTimestamp := none },
    Spec := { PolicySelector := [("team", "sre")], Settings := "#alerts" },
    Status :=
      { State := "", NewrelicChannelId := none, NewrelicConfigVersion := "",
        LastError := none } }

/-- The channel `default/slack` once synced under the external id 7 and then marked for
deletion: the finalizer is present and the deletion timestamp set. -/
def deletingChannel : NotificationChannel :=
  { ObjectMeta :=
      { Name := "slack", Namespace := "default", ResourceVersion := 5,
        Finalizers := ["newrelic"], DeletionTimestamp := some 100 },
    Spec := { PolicySelector := [("team", "sre")], Settings := "#alerts" },
    Status :=
      { State := "Ready", NewrelicChannelId := some 7, NewrelicConfigVersion := "#alerts",
        LastError := none } }

/-- A world whose store holds `newChannel`; no policy is selected. -/
def newWorld : World Unit :=
  { server := { stored := some newChannel, faults := [], written := [] },
    policies := ⟨[]⟩, external := () }

/-- A world whose store holds `deletingChannel`. -/
def deletingWorld : World Unit :=
  { server := { stored := some deletingChannel, faults := [], written := [] },
    policies := ⟨[]⟩, external := () }

/-- A world whose store holds no resource. -/
def emptyWorld : World Unit :=
  { server := { stored := none, faults := [], written := [] },
    policies := ⟨[]⟩, external := () }

end controller

/-! ## Further definitions for the controller, the store client and the sync -/

namespace controller

open types v1alpha1 apiserver

/-- The value of the variable `channel` of `Reconcile`: the channel built by `NewChannel`
with `PreviousVersion` set to the config version of the status. -/
def reconciledChannel (inst : NotificationChannel) (policies : AlertPolicyList) :
    domain.NotificationChannel :=
  { NewChannel inst policies with
    Channel :=
      { (NewChannel inst policies).Channel with
        Configuration :=
          { (NewChannel inst policies).Channel.Configuration with
            PreviousVersion := (GetStatus inst).NewrelicConfigVersion } } }

/-- A world whose store holds `newChannel` and fails its sixth call, the write of the Error
status of a reconcile whose external save failed, with an internal error. -/
def flakyWorld : World Unit :=
  { server :=
      { stored := some newChannel,
        faults := [none, none, none, none, none, some (errors.New "etcd unavailable")],
        written := [] },
    policies := ⟨[]⟩, external := () }

end controller

namespace k8s

open types v1alpha1 client_go

variable {S T σ : Type}

/-- The store rejects the status write of `policy` with a conflict `n` times in a row, each
re-fetch by `key` succeeding, and answers the next write (that of the object fetched last
with the status of `policy`) otherwise than with a conflict. -/
def conflictsThen (c : Client (Object S T) σ) (key : NamespacedName) :
    Nat → Object S T → σ → Bool
  | 0, policy, s =>
    match (c.StatusUpdate policy s).1.1 with
    | some err => !errors.IsConflict err
    | none => true
  | n + 1, policy, s =>
    match (c.StatusUpdate policy s).1.1 with
    | some err =>
      errors.IsConflict err &&
        match (c.Get key (c.StatusUpdate policy s).2).1 with
        | Except.ok serverPolicy =>
          conflictsThen c key n { serverPolicy with Status := policy.Status }
            (c.Get key (c.StatusUpdate policy s).2).2
        | Except.error _ => false
    | none => false

/-- Whether a store call is a status write. -/
def isStatusUpdate {O : Type} (ev : Event O) : Bool :=
  match ev.call with
  | Call.StatusUpdate _ => true
  | _ => false

/-- Whether a store call is a fetch. -/
def isGet {O : Type} (ev : Event O) : Bool :=
  match ev.call with
  | Call.Get _ => true
  | _ => false

/-- A policy that carries the finalizer of another controller. -/
def foreignFinalizerPolicy : AlertPolicy :=
  { ObjectMeta :=
      { Name := "cpu-alerts", Namespace := "default", ResourceVersion := 2,
        Finalizers := ["other.io/cleanup"], DeletionTimestamp := none },
    Spec := { NrqlConditions := ["cpu > 80"], ApmConditions := [], InfraConditions := [] },
    Status := { State := "", NewrelicPolicyId := none, LastError := none } }

/-- A store holding `foreignFinalizerPolicy`. -/
def foreignFinalizerServer : apiserver.ApiServer AlertPolicySpec AlertPolicyStatus :=
  { stored := some foreignFinalizerPolicy, faults := [], written := [] }

/-- A store holding `serverPolicy` that rejects the next two status writes with a conflict
(a concurrent writer got in first each time) and fails no fetch. -/
def contendedServer : apiserver.ApiServer AlertPolicySpec AlertPolicyStatus :=
  { stored := some serverPolicy,
    faults := [some apiserver.conflict, none, some apiserver.conflict, none, none],
    written := [] }

end k8s

namespace newrelic

open domain

/-- An external service that lists and deletes like `storeClient` but answers every create
call with a not-found response and no client error. -/
def notFoundCreateClient : NewrelicClient Store where
  Get := storeClient.Get
  Delete := storeClient.Delete
  PostJson := fun _ _ store =>
    (⟨some ⟨404, "policy not found", Except.error (errors.New "not a condition list")⟩, none⟩,
      store)

/-- A call failed in the sense of the specification, whatever the repository makes of the
reply: the client returned an error (a transport failure), or the response carries a status
outside 200 to 299 (an external API failure). -/
def Reply.failed (reply : Reply) : Bool :=
  reply.err.isSome ||
    match reply.response with
    | some response => decide (response.StatusCode < 200) || decide (response.StatusCode ≥ 300)
    | none => false

/-- An external service that lists and creates like `storeClient` but answers every delete
call with a server error response (status 500) and no client error, deleting nothing. -/
def serverErrorDeleteClient : NewrelicClient Store where
  Get := storeClient.Get
  Delete := fun _ store =>
    (⟨some ⟨500, "internal error", Except.error (errors.New "not a condition list")⟩, none⟩,
      store)
  PostJson := storeClient.PostJson

/-- A policy not yet created externally (no external id) that wants the CPU condition. -/
def unsyncedPolicy : AlertPolicy := ⟨⟨none, "example"⟩, [⟨cpuCondition⟩]⟩

/-- An external store holding nothing. -/
def emptyStore : Store := ⟨[], 1⟩

end newrelic

/-! # Theorems -/

namespace newrelic

open domain

variable {σ : Type}

/-! ### Single calls -/

theorem contains_iff_hasCounterpart (set : NrqlConditionSet) (c : NrqlConditionBody) :
    set.Contains c = true ↔ hasCounterpart set.conditions c := by
  simp [NrqlConditionSet.Contains, hasCounterpart, NrqlConditionBody.Equals, and_assoc]

theorem getConditions_trace (client : NewrelicClient σ) (policyId : Int) (s : σ) :
    (getConditions client policyId s).trace =
      [Event.mk (Call.Get (Endpoint.conditionsOfPolicy policyId))
        (client.Get (Endpoint.conditionsOfPolicy policyId) s).1] := by
  unfold getConditions
  simp only []
  split
  · rfl
  · split
    · rfl
    · split <;> rfl

/-- The event of the delete call issued for a condition id in a state. -/
theorem deleteConditions_eq (client : NewrelicClient σ) (conditionId : Int) (s : σ) :
    deleteConditions client conditionId s =
      ⟨[Event.mk (Call.Delete (Endpoint.condition conditionId))
          (client.Delete (Endpoint.condition conditionId) s).1],
        (client.Delete (Endpoint.condition conditionId) s).2,
        match (client.Delete (Endpoint.condition conditionId) s).1.err with
        | some err => Except.error (Failure.err err)
        | none => Except.ok ()⟩ := by
  unfold deleteConditions
  simp only []
  split <;> simp_all

theorem saveCondition_eq (client : NewrelicClient σ) (policyId : Int)
    (condition : NrqlCondition) (s : σ) :
    saveCondition client policyId condition s =
      ⟨[Event.mk (Call.PostJson (Endpoint.conditionsUnderPolicy policyId) condition)
          (client.PostJson (Endpoint.conditionsUnderPolicy policyId) condition s).1],
        (client.PostJson (Endpoint.conditionsUnderPolicy policyId) condition s).2,
        match (Event.mk (Call.PostJson (Endpoint.conditionsUnderPolicy policyId) condition)
          (client.PostJson (Endpoint.conditionsUnderPolicy policyId) condition s).1).failure with
        | some err => Except.error (Failure.err err)
        | none => Except.ok ()⟩ := by
  unfold saveCondition Event.failure
  simp only []
  split
  · simp_all
  · split <;> simp_all

theorem getConditions_result_of_failure (client : NewrelicClient σ) (policyId : Int) (s : σ)
    (e : Error)
    (h : (Event.mk (Call.Get (Endpoint.conditionsOfPolicy policyId))
      (client.Get (Endpoint.conditionsOfPolicy policyId) s).1).failure = some e) :
    (getConditions client policyId s).result = Except.error (Failure.err e) := by
  unfold Event.failure at h
  unfold getConditions
  simp only [] at h ⊢
  split
  · simp_all
  · split
    · simp_all
    · split <;> simp_all

theorem getConditions_failure_of_ok (client : NewrelicClient σ) (policyId : Int) (s : σ)
    (l : NrqlConditionList) (h : (getConditions client policyId s).result = Except.ok l) :
    (Event.mk (Call.Get (Endpoint.conditionsOfPolicy policyId))
      (client.Get (Endpoint.conditionsOfPolicy policyId) s).1).failure = none := by
  cases hf : (Event.mk (Call.Get (Endpoint.conditionsOfPolicy policyId))
      (client.Get (Endpoint.conditionsOfPolicy policyId) s).1).failure with
  | none => rfl
  | some e =>
    rw [getConditions_result_of_failure client policyId s e hf] at h
    cases h

/-! ### The two loops of `saveConditions` -/

theorem deleteLoop_cons (client : NewrelicClient σ) (set : NrqlConditionSet)
    (c : NrqlConditionBody) (rest : List NrqlConditionBody) (s : σ) :
    deleteLoop client set (c :: rest) s =
      if set.Contains c then deleteLoop client set rest s
      else
        match c.Id with
        | none => ⟨[], s, Except.error Failure.nilDereference⟩
        | some conditionId =>
          match (client.Delete (Endpoint.condition conditionId) s).1.err with
          | some err =>
            ⟨[Event.mk (Call.Delete (Endpoint.condition conditionId))
                (client.Delete (Endpoint.condition conditionId) s).1],
              (client.Delete (Endpoint.condition conditionId) s).2,
              Except.error (Failure.err err)⟩
          | none =>
            ⟨Event.mk (Call.Delete (Endpoint.condition conditionId))
                (client.Delete (Endpoint.condition conditionId) s).1 ::
                (deleteLoop client set rest
                  (client.Delete (Endpoint.condition conditionId) s).2).trace,
              (deleteLoop client set rest
                (client.Delete (Endpoint.condition conditionId) s).2).state,
              (deleteLoop client set rest
                (client.Delete (Endpoint.condition conditionId) s).2).result⟩ := by
  rw [deleteLoop]
  split
  · rfl
  · split
    · rfl
    · rename_i conditionId hid
      simp only [deleteConditions_eq]
      cases (client.Delete (Endpoint.condition conditionId) s).1.err <;> simp

theorem createLoop_cons (client : NewrelicClient σ) (policyId : Int) (set : NrqlConditionSet)
    (d : NrqlCondition) (rest : List NrqlCondition) (s : σ) :
    createLoop client policyId set (d :: rest) s =
      if set.Contains d.Condition then createLoop client policyId set rest s
      else
        match (Event.mk (Call.PostJson (Endpoint.conditionsUnderPolicy policyId) d)
          (client.PostJson (Endpoint.conditionsUnderPolicy policyId) d s).1).failure with
        | some err =>
          ⟨[Event.mk (Call.PostJson (Endpoint.conditionsUnderPolicy policyId) d)
              (client.PostJson (Endpoint.conditionsUnderPolicy policyId) d s).1],
            (client.PostJson (Endpoint.conditionsUnderPolicy policyId) d s).2,
            Except.error (Failure.err err)⟩
        | none =>
          ⟨Event.mk (Call.PostJson (Endpoint.conditionsUnderPolicy policyId) d)
              (client.PostJson (Endpoint.conditionsUnderPolicy policyId) d s).1 ::
              (createLoop client policyId set rest
                (client.PostJson (Endpoint.conditionsUnderPolicy policyId) d s).2).trace,
            (createLoop client policyId set rest
              (client.PostJson (Endpoint.conditionsUnderPolicy policyId) d s).2).state,
            (createLoop client policyId set rest
              (client.PostJson (Endpoint.conditionsUnderPolicy policyId) d s).2).result⟩ := by
  rw [createLoop]
  split
  · rfl
  · simp only [saveCondition_eq]
    cases (Event.mk (Call.PostJson (Endpoint.conditionsUnderPolicy policyId) d)
          (client.PostJson (Endpoint.conditionsUnderPolicy policyId) d s).1).failure <;> simp

theorem abortsAtFailure_nil {α : Type} (s : σ) (r : Except Failure α) :
    AbortsAtFailure (Run.mk ([] : List Event) s r) := by
  intro before after ev e h _
  simp at h

theorem abortsAtFailure_single {α : Type} (ev0 : Event) (s : σ) (e0 : Error)
    (h0 : ev0.failure = some e0) :
    AbortsAtFailure (Run.mk (α := α) [ev0] s (Except.error (Failure.err e0))) := by
  intro before after ev e h hf
  cases before with
  | nil =>
    simp at h
    obtain ⟨h1, h2⟩ := h
    subst h1
    rw [h0] at hf
    cases hf
    exact ⟨h2, rfl⟩
  | cons b bs => simp at h

theorem abortsAtFailure_cons {α : Type} (ev0 : Event) (r : Run Event σ α)
    (h0 : ev0.failure = none) (hr : AbortsAtFailure r) :
    AbortsAtFailure (Run.mk (ev0 :: r.trace) r.state r.result) := by
  intro before after ev e h hf
  cases before with
  | nil =>
    simp at h
    rw [h.1, hf] at h0
    cases h0
  | cons b bs =>
    simp at h
    exact hr bs after ev e h.2 hf

theorem deleteLoop_aborts (client : NewrelicClient σ) (set : NrqlConditionSet)
    (cs : List NrqlConditionBody) (s : σ) :
    AbortsAtFailure (deleteLoop client set cs s) := by
  induction cs generalizing s with
  | nil => exact abortsAtFailure_nil s _
  | cons c rest ih =>
    rw [deleteLoop_cons]
    split
    · exact ih s
    · split
      · exact abortsAtFailure_nil s _
      · rename_i conditionId hid
        split
        · rename_i err herr
          exact abortsAtFailure_single _ _ err (by simpa [Event.failure] using herr)
        · rename_i herr
          exact abortsAtFailure_cons _ _ (by simpa [Event.failure] using herr) (ih _)

theorem createLoop_aborts (client : NewrelicClient σ) (policyId : Int) (set : NrqlConditionSet)
    (ds : List NrqlCondition) (s : σ) :
    AbortsAtFailure (createLoop client policyId set ds s) := by
  induction ds generalizing s with
  | nil => exact abortsAtFailure_nil s _
  | cons d rest ih =>
    rw [createLoop_cons]
    split
    · exact ih s
    · split
      · rename_i err herr
        exact abortsAtFailure_single _ _ err herr
      · rename_i herr
        exact abortsAtFailure_cons _ _ herr (ih _)

theorem abortsAtFailure_append {α : Type} (tr : List Event) (r : Run Event σ α)
    (h0 : ∀ ev ∈ tr, ev.failure = none) (hr : AbortsAtFailure r) :
    AbortsAtFailure (Run.mk (tr ++ r.trace) r.state r.result) := by
  induction tr with
  | nil => simpa using hr
  | cons ev0 rest ih =>
    have h1 := ih (fun ev hev => h0 ev (List.mem_cons_of_mem _ hev))
    exact abortsAtFailure_cons ev0 (Run.mk (rest ++ r.trace) r.state r.result)
      (h0 ev0 (List.mem_cons_self _ _)) h1

theorem no_failure_of_ok {α : Type} (r : Run Event σ α) (hr : AbortsAtFailure r) (a : α)
    (hok : r.result = Except.ok a) : ∀ ev ∈ r.trace, ev.failure = none := by
  intro ev hev
  obtain ⟨before, after, hsplit⟩ := List.append_of_mem hev
  cases hf : ev.failure with
  | none => rfl
  | some e =>
    have := (hr before after ev e hsplit hf).2
    rw [hok] at this
    cases this

theorem getConditions_state (client : NewrelicClient σ) (policyId : Int) (s : σ) :
    (getConditions client policyId s).state =
      (client.Get (Endpoint.conditionsOfPolicy policyId) s).2 := by
  unfold getConditions
  simp only []
  split
  · rfl
  · split
    · rfl
    · split <;> rfl

/-- The run of `saveConditions` once the policy id is known and the initial query has
returned a condition list. -/
theorem saveConditions_eq_of_get (client : NewrelicClient σ) (policy : AlertPolicy) (s : σ)
    (policyId : Int) (existing : NrqlConditionList)
    (hid : policy.Policy.Id = some policyId)
    (hget : (getConditions client policyId s).result = Except.ok existing) :
    saveConditions client policy s =
      match (deleteLoop client (NewNrqlConditionSetFromSlice policy.NrqlConditions)
          existing.Condition (client.Get (Endpoint.conditionsOfPolicy policyId) s).2).result with
      | Except.error f =>
        ⟨Event.mk (Call.Get (Endpoint.conditionsOfPolicy policyId))
            (client.Get (Endpoint.conditionsOfPolicy policyId) s).1 ::
          (deleteLoop client (NewNrqlConditionSetFromSlice policy.NrqlConditions)
            existing.Condition (client.Get (Endpoint.conditionsOfPolicy policyId) s).2).trace,
          (deleteLoop client (NewNrqlConditionSetFromSlice policy.NrqlConditions)
            existing.Condition (client.Get (Endpoint.conditionsOfPolicy policyId) s).2).state,
          Except.error f⟩
      | Except.ok _ =>
        ⟨Event.mk (Call.Get (Endpoint.conditionsOfPolicy policyId))
            (client.Get (Endpoint.conditionsOfPolicy policyId) s).1 ::
          ((deleteLoop client (NewNrqlConditionSetFromSlice policy.NrqlConditions)
            existing.Condition (client.Get (Endpoint.conditionsOfPolicy policyId) s).2).trace
          ++ (createLoop client policyId (NewNrqlConditionSet existing) policy.NrqlConditions
            (deleteLoop client (NewNrqlConditionSetFromSlice policy.NrqlConditions)
              existing.Condition
              (client.Get (Endpoint.conditionsOfPolicy policyId) s).2).state).trace),
          (createLoop client policyId (NewNrqlConditionSet existing) policy.NrqlConditions
            (deleteLoop client (NewNrqlConditionSetFromSlice policy.NrqlConditions)
              existing.Condition
              (client.Get (Endpoint.conditionsOfPolicy policyId) s).2).state).state,
          (createLoop client policyId (NewNrqlConditionSet existing) policy.NrqlConditions
            (deleteLoop client (NewNrqlConditionSetFromSlice policy.NrqlConditions)
              existing.Condition
              (client.Get (Endpoint.conditionsOfPolicy policyId) s).2).state).result⟩ := by
  unfold saveConditions
  simp only [hid, hget, getConditions_trace, getConditions_state]
  split <;> simp

theorem saveConditions_aborts (client : NewrelicClient σ) (policy : AlertPolicy) (s : σ) :
    AbortsAtFailure (saveConditions client policy s) := by
  cases hid : policy.Policy.Id with
  | none =>
    unfold saveConditions
    simp only [hid]
    exact abortsAtFailure_nil s _
  | some policyId =>
    cases hget : (getConditions client policyId s).result with
    | error f =>
      have hrun : saveConditions client policy s =
          ⟨[Event.mk (Call.Get (Endpoint.conditionsOfPolicy policyId))
            (client.Get (Endpoint.conditionsOfPolicy policyId) s).1],
            (client.Get (Endpoint.conditionsOfPolicy policyId) s).2, Except.error f⟩ := by
        unfold saveConditions
        simp only [hid, hget, getConditions_trace, getConditions_state]
      rw [hrun]
      intro before after ev e h hf
      cases before with
      | nil =>
        simp at h
        obtain ⟨h1, h2⟩ := h
        subst h1
        have := getConditions_result_of_failure client policyId s e hf
        rw [hget] at this
        exact ⟨h2, by simpa using this⟩
      | cons b bs => simp at h
    | ok existing =>
      rw [saveConditions_eq_of_get client policy s policyId existing hid hget]
      have h0 := getConditions_failure_of_ok client policyId s existing hget
      have hdel := deleteLoop_aborts client (NewNrqlConditionSetFromSlice policy.NrqlConditions)
        existing.Condition (client.Get (Endpoint.conditionsOfPolicy policyId) s).2
      split
      · rename_i f hf
        have := abortsAtFailure_cons _ _ h0 hdel
        rw [hf] at this
        exact this
      · rename_i u hu
        have hnone := no_failure_of_ok _ hdel u hu
        have hcre := createLoop_aborts client policyId (NewNrqlConditionSet existing)
          policy.NrqlConditions
          (deleteLoop client (NewNrqlConditionSetFromSlice policy.NrqlConditions)
            existing.Condition (client.Get (Endpoint.conditionsOfPolicy policyId) s).2).state
        exact abortsAtFailure_cons _ _ h0 (abortsAtFailure_append _ _ hnone hcre)

theorem deleteLoop_calls (client : NewrelicClient σ) (set : NrqlConditionSet)
    (cs : List NrqlConditionBody) (s : σ) :
    ∀ ev ∈ (deleteLoop client set cs s).trace,
      ev.call.isDelete = true ∧ ev.call.isCreate = false := by
  induction cs generalizing s with
  | nil => intro ev hev; simp [deleteLoop] at hev
  | cons c rest ih =>
    rw [deleteLoop_cons]
    split
    · exact ih s
    · split
      · intro ev hev; simp at hev
      · split
        · intro ev hev
          simp at hev
          subst hev
          exact ⟨rfl, rfl⟩
        · intro ev hev
          simp at hev
          rcases hev with hev | hev
          · subst hev
            exact ⟨rfl, rfl⟩
          · exact ih _ ev hev

theorem createLoop_calls (client : NewrelicClient σ) (policyId : Int) (set : NrqlConditionSet)
    (ds : List NrqlCondition) (s : σ) :
    ∀ ev ∈ (createLoop client policyId set ds s).trace,
      ev.call.isCreate = true ∧ ev.call.isDelete = false := by
  induction ds generalizing s with
  | nil => intro ev hev; simp [createLoop] at hev
  | cons d rest ih =>
    rw [createLoop_cons]
    split
    · exact ih s
    · split
      · intro ev hev
        simp at hev
        subst hev
        exact ⟨rfl, rfl⟩
      · intro ev hev
        simp at hev
        rcases hev with hev | hev
        · subst hev
          exact ⟨rfl, rfl⟩
        · exact ih _ ev hev

theorem deleteLoop_success (client : NewrelicClient σ) (set : NrqlConditionSet)
    (cs : List NrqlConditionBody) (s : σ) (hids : ∀ c ∈ cs, c.Id ≠ none)
    (hsucc : ∀ ev ∈ (deleteLoop client set cs s).trace, ev.failure = none) :
    (deleteLoop client set cs s).result = Except.ok () ∧
      ((deleteLoop client set cs s).trace.map (fun ev => ev.call)).map some =
        (cs.filter (fun c => !set.Contains c)).map deleteCallFor := by
  induction cs generalizing s with
  | nil => simp [deleteLoop]
  | cons c rest ih =>
    have hrest : ∀ c ∈ rest, c.Id ≠ none := fun x hx => hids x (List.mem_cons_of_mem _ hx)
    rw [deleteLoop_cons] at hsucc ⊢
    by_cases hc : set.Contains c = true
    · simp only [hc, if_true] at hsucc ⊢
      simpa [List.filter_cons, hc] using ih s hrest hsucc
    · simp only [hc] at hsucc ⊢
      cases hid : c.Id with
      | none => exact absurd hid (hids c (List.mem_cons_self _ _))
      | some conditionId =>
        simp only [hid] at hsucc ⊢
        cases herr : (client.Delete (Endpoint.condition conditionId) s).1.err with
        | some err =>
          simp only [herr] at hsucc
          have := hsucc _ (List.mem_singleton_self _)
          simp [Event.failure, herr] at this
        | none =>
          simp only [herr] at hsucc ⊢
          have h2 := ih (client.Delete (Endpoint.condition conditionId) s).2 hrest
            (fun ev hev => hsucc ev (List.mem_cons_of_mem _ hev))
          refine ⟨h2.1, ?_⟩
          simp [List.filter_cons, hc, deleteCallFor, hid]
          simpa [deleteCallFor] using h2.2

theorem createLoop_success (client : NewrelicClient σ) (policyId : Int)
    (set : NrqlConditionSet) (ds : List NrqlCondition) (s : σ)
    (hsucc : ∀ ev ∈ (createLoop client policyId set ds s).trace, ev.failure = none) :
    (createLoop client policyId set ds s).result = Except.ok () ∧
      (createLoop client policyId set ds s).trace.map (fun ev => ev.call) =
        (ds.filter (fun d => !set.Contains d.Condition)).map
          (fun d => Call.PostJson (Endpoint.conditionsUnderPolicy policyId) d) := by
  induction ds generalizing s with
  | nil => simp [createLoop]
  | cons d rest ih =>
    rw [createLoop_cons] at hsucc ⊢
    by_cases hc : set.Contains d.Condition = true
    · simp only [hc, if_true] at hsucc ⊢
      simpa [List.filter_cons, hc] using ih s hsucc
    · simp only [hc] at hsucc ⊢
      cases herr : (Event.mk (Call.PostJson (Endpoint.conditionsUnderPolicy policyId) d)
          (client.PostJson (Endpoint.conditionsUnderPolicy policyId) d s).1).failure with
      | some err =>
        simp only [herr] at hsucc
        have := hsucc _ (List.mem_singleton_self _)
        rw [herr] at this
        cases this
      | none =>
        simp only [herr] at hsucc ⊢
        have h2 := ih (client.PostJson (Endpoint.conditionsUnderPolicy policyId) d s).2
          (fun ev hev => hsucc ev (List.mem_cons_of_mem _ hev))
        refine ⟨h2.1, ?_⟩
        simp [List.filter_cons, hc]
        simpa using h2.2

theorem deleteLoop_noop (client : NewrelicClient σ) (set : NrqlConditionSet)
    (cs : List NrqlConditionBody) (s : σ) (hall : ∀ c ∈ cs, set.Contains c = true) :
    deleteLoop client set cs s = ⟨[], s, Except.ok ()⟩ := by
  induction cs with
  | nil => rfl
  | cons c rest ih =>
    rw [deleteLoop_cons, if_pos (hall c (List.mem_cons_self _ _))]
    exact ih (fun x hx => hall x (List.mem_cons_of_mem _ hx))

theorem createLoop_noop (client : NewrelicClient σ) (policyId : Int) (set : NrqlConditionSet)
    (ds : List NrqlCondition) (s : σ) (hall : ∀ d ∈ ds, set.Contains d.Condition = true) :
    createLoop client policyId set ds s = ⟨[], s, Except.ok ()⟩ := by
  induction ds with
  | nil => rfl
  | cons d rest ih =>
    rw [createLoop_cons, if_pos (hall d (List.mem_cons_self _ _))]
    exact ih (fun x hx => hall x (List.mem_cons_of_mem _ hx))

/-! ### The whole sync -/

theorem deleteCalls_of_loops (ev0 : Event) (t1 t2 : List Event)
    (h0 : ev0.call.isDelete = false)
    (h1 : ∀ ev ∈ t1, ev.call.isDelete = true ∧ ev.call.isCreate = false)
    (h2 : ∀ ev ∈ t2, ev.call.isCreate = true ∧ ev.call.isDelete = false) :
    deleteCalls (ev0 :: (t1 ++ t2)) = t1.map (fun ev => ev.call) := by
  unfold deleteCalls
  rw [List.map_cons, List.filter_cons_of_neg (by simp [h0]), List.map_append,
    List.filter_append]
  have e1 : List.filter Call.isDelete (t1.map (fun ev => ev.call)) = t1.map (fun ev => ev.call) := by
    rw [List.filter_eq_self]
    intro c hc
    obtain ⟨ev, hev, rfl⟩ := List.mem_map.1 hc
    exact (h1 ev hev).1
  have e2 : List.filter Call.isDelete (t2.map (fun ev => ev.call)) = [] := by
    rw [List.filter_eq_nil_iff]
    intro c hc
    obtain ⟨ev, hev, rfl⟩ := List.mem_map.1 hc
    simp [(h2 ev hev).2]
  rw [e1, e2, List.append_nil]

theorem createCalls_of_loops (ev0 : Event) (t1 t2 : List Event)
    (h0 : ev0.call.isCreate = false)
    (h1 : ∀ ev ∈ t1, ev.call.isDelete = true ∧ ev.call.isCreate = false)
    (h2 : ∀ ev ∈ t2, ev.call.isCreate = true ∧ ev.call.isDelete = false) :
    createCalls (ev0 :: (t1 ++ t2)) = t2.map (fun ev => ev.call) := by
  unfold createCalls
  rw [List.map_cons, List.filter_cons_of_neg (by simp [h0]), List.map_append,
    List.filter_append]
  have e1 : List.filter Call.isCreate (t1.map (fun ev => ev.call)) = [] := by
    rw [List.filter_eq_nil_iff]
    intro c hc
    obtain ⟨ev, hev, rfl⟩ := List.mem_map.1 hc
    simp [(h1 ev hev).2]
  have e2 : List.filter Call.isCreate (t2.map (fun ev => ev.call)) = t2.map (fun ev => ev.call) := by
    rw [List.filter_eq_self]
    intro c hc
    obtain ⟨ev, hev, rfl⟩ := List.mem_map.1 hc
    exact (h2 ev hev).1
  rw [e1, e2, List.nil_append]

/-- The successful run: when every call that is issued succeeds and every external
condition carries its id, the sync returns nil, its delete calls are those of the first
loop and its create calls those of the second. -/
theorem saveConditions_success (client : NewrelicClient σ) (policy : AlertPolicy) (s : σ)
    (policyId : Int) (existing : NrqlConditionList)
    (hid : policy.Policy.Id = some policyId)
    (hget : (getConditions client policyId s).result = Except.ok existing)
    (hids : ∀ c ∈ existing.Condition, c.Id ≠ none)
    (hsucc : ∀ ev ∈ (saveConditions client policy s).trace, ev.failure = none) :
    (saveConditions client policy s).result = Except.ok () ∧
      (deleteCalls (saveConditions client policy s).trace).map some =
        (existing.Condition.filter
          (fun c => !(NewNrqlConditionSetFromSlice policy.NrqlConditions).Contains c)).map
            deleteCallFor ∧
      createCalls (saveConditions client policy s).trace =
        (policy.NrqlConditions.filter
          (fun d => !(NewNrqlConditionSet existing).Contains d.Condition)).map
            (fun d => Call.PostJson (Endpoint.conditionsUnderPolicy policyId) d) ∧
      (saveConditions client policy s).trace.map (fun ev => ev.call) =
        Call.Get (Endpoint.conditionsOfPolicy policyId) ::
          (deleteCalls (saveConditions client policy s).trace ++
            createCalls (saveConditions client policy s).trace) := by
  have hcalls1 := deleteLoop_calls client (NewNrqlConditionSetFromSlice policy.NrqlConditions)
    existing.Condition (client.Get (Endpoint.conditionsOfPolicy policyId) s).2
  rw [saveConditions_eq_of_get client policy s policyId existing hid hget] at hsucc ⊢
  cases hres : (deleteLoop client (NewNrqlConditionSetFromSlice policy.NrqlConditions)
      existing.Condition (client.Get (Endpoint.conditionsOfPolicy policyId) s).2).result with
  | error f =>
    simp only [hres] at hsucc
    have h1 := deleteLoop_success client (NewNrqlConditionSetFromSlice policy.NrqlConditions)
      existing.Condition (client.Get (Endpoint.conditionsOfPolicy policyId) s).2 hids
      (fun ev hev => hsucc ev (List.mem_cons_of_mem _ hev))
    rw [hres] at h1
    cases h1.1
  | ok u =>
    simp only [hres] at hsucc ⊢
    have h1 := deleteLoop_success client (NewNrqlConditionSetFromSlice policy.NrqlConditions)
      existing.Condition (client.Get (Endpoint.conditionsOfPolicy policyId) s).2 hids
      (fun ev hev => hsucc ev (List.mem_cons_of_mem _ (List.mem_append_left _ hev)))
    have hcalls2 := createLoop_calls client policyId (NewNrqlConditionSet existing)
      policy.NrqlConditions
      (deleteLoop client (NewNrqlConditionSetFromSlice policy.NrqlConditions)
        existing.Condition (client.Get (Endpoint.conditionsOfPolicy policyId) s).2).state
    have h2 := createLoop_success client policyId (NewNrqlConditionSet existing)
      policy.NrqlConditions
      (deleteLoop client (NewNrqlConditionSetFromSlice policy.NrqlConditions)
        existing.Condition (client.Get (Endpoint.conditionsOfPolicy policyId) s).2).state
      (fun ev hev => hsucc ev (List.mem_cons_of_mem _ (List.mem_append_right _ hev)))
    rw [deleteCalls_of_loops (Event.mk (Call.Get (Endpoint.conditionsOfPolicy policyId))
        (client.Get (Endpoint.conditionsOfPolicy policyId) s).1) _ _ rfl hcalls1 hcalls2,
      createCalls_of_loops (Event.mk (Call.Get (Endpoint.conditionsOfPolicy policyId))
        (client.Get (Endpoint.conditionsOfPolicy policyId) s).1) _ _ rfl hcalls1 hcalls2]
    exact ⟨h2.1, h1.2, h2.2, by simp⟩

/-- The run in which nothing is to be done: when every external condition is a member of
the desired set and every desired condition a member of the external set, the only call is
the initial query and the sync returns nil. -/
theorem saveConditions_noop (client : NewrelicClient σ) (policy : AlertPolicy) (s : σ)
    (policyId : Int) (existing : NrqlConditionList)
    (hid : policy.Policy.Id = some policyId)
    (hget : (getConditions client policyId s).result = Except.ok existing)
    (h1 : ∀ c ∈ existing.Condition,
      (NewNrqlConditionSetFromSlice policy.NrqlConditions).Contains c = true)
    (h2 : ∀ d ∈ policy.NrqlConditions,
      (NewNrqlConditionSet existing).Contains d.Condition = true) :
    saveConditions client policy s =
      ⟨[Event.mk (Call.Get (Endpoint.conditionsOfPolicy policyId))
          (client.Get (Endpoint.conditionsOfPolicy policyId) s).1],
        (client.Get (Endpoint.conditionsOfPolicy policyId) s).2, Except.ok ()⟩ := by
  rw [saveConditions_eq_of_get client policy s policyId existing hid hget]
  rw [deleteLoop_noop client _ _ _ h1]
  simp only []
  rw [createLoop_noop client policyId _ _ _ h2]
  simp

/-! ### Claims about `saveConditions` -/

/-- C1: for a policy with a known external id, desired conditions `D` and external
conditions `E` returned by `getConditions` (each carrying its external id), when every call
issued succeeds, `saveConditions` returns nil and its delete calls are, one per element and
in order, the delete calls addressed by the own external id of exactly those elements of `E`
that have no semantically-equal counterpart in `D`; an element of `E` with a counterpart in
`D` gets no delete call. -/
theorem saveConditions_deletes_exactly_unmatched (client : NewrelicClient σ)
    (policy : AlertPolicy) (s : σ) (policyId : Int) (E : List NrqlConditionBody)
    (hid : policy.Policy.Id = some policyId)
    (hget : (getConditions client policyId s).result = Except.ok ⟨E⟩)
    (hids : ∀ c ∈ E, c.Id ≠ none)
    (hsucc : ∀ ev ∈ (saveConditions client policy s).trace, ev.failure = none) :
    (saveConditions client policy s).result = Except.ok () ∧
      (deleteCalls (saveConditions client policy s).trace).map some =
        (E.filter (fun c => decide
          (¬ hasCounterpart (policy.NrqlConditions.map (fun d => d.Condition)) c))).map
            deleteCallFor := by
  have h := saveConditions_success client policy s policyId ⟨E⟩ hid hget hids hsucc
  refine ⟨h.1, ?_⟩
  rw [h.2.1]
  congr 1
  apply List.filter_congr
  intro c _
  have := contains_iff_hasCounterpart (NewNrqlConditionSetFromSlice policy.NrqlConditions) c
  simp only [NewNrqlConditionSetFromSlice] at this
  by_cases hc : hasCounterpart (policy.NrqlConditions.map (fun d => d.Condition)) c
  · simp [hc, this.2 hc, NewNrqlConditionSetFromSlice]
  · have hn : ¬ (NrqlConditionSet.mk
        (policy.NrqlConditions.map (fun d => d.Condition))).Contains c = true :=
      fun h2 => hc (this.1 h2)
    simp [hc, hn, NewNrqlConditionSetFromSlice]

theorem saveConditions_deletes_exactly_unmatched_witness :
    (saveConditions storeClient examplePolicy exampleStore).result = Except.ok () ∧
      (deleteCalls (saveConditions storeClient examplePolicy exampleStore).trace).map some =
        (exampleExternal.filter (fun c => decide
          (¬ hasCounterpart (examplePolicy.NrqlConditions.map (fun d => d.Condition)) c))).map
            deleteCallFor ∧
      deleteCalls (saveConditions storeClient examplePolicy exampleStore).trace =
        [Call.Delete (Endpoint.condition 2)] :=
  ⟨(saveConditions_deletes_exactly_unmatched storeClient examplePolicy exampleStore 5
    exampleExternal (by decide) (by decide) (by decide) (by decide)).1,
   (saveConditions_deletes_exactly_unmatched storeClient examplePolicy exampleStore 5
    exampleExternal (by decide) (by decide) (by decide) (by decide)).2, by decide⟩

/-- C2: for a policy with a known external id, desired conditions `D` and external
conditions `E` returned by `getConditions`, when every call issued succeeds,
`saveConditions` returns nil and its create calls are, one per element and in order, the
create calls under the id of the policy for exactly those elements of `D` that have no
semantically-equal counterpart in `E`; an element of `D` with a counterpart in `E` gets no
create call. -/
theorem saveConditions_creates_exactly_unmatched (client : NewrelicClient σ)
    (policy : AlertPolicy) (s : σ) (policyId : Int) (E : List NrqlConditionBody)
    (hid : policy.Policy.Id = some policyId)
    (hget : (getConditions client policyId s).result = Except.ok ⟨E⟩)
    (hids : ∀ c ∈ E, c.Id ≠ none)
    (hsucc : ∀ ev ∈ (saveConditions client policy s).trace, ev.failure = none) :
    (saveConditions client policy s).result = Except.ok () ∧
      createCalls (saveConditions client policy s).trace =
        (policy.NrqlConditions.filter
          (fun d => decide (¬ hasCounterpart E d.Condition))).map
            (fun d => Call.PostJson (Endpoint.conditionsUnderPolicy policyId) d) := by
  have h := saveConditions_success client policy s policyId ⟨E⟩ hid hget hids hsucc
  refine ⟨h.1, ?_⟩
  rw [h.2.2.1]
  congr 1
  apply List.filter_congr
  intro d _
  have := contains_iff_hasCounterpart (NewNrqlConditionSet ⟨E⟩) d.Condition
  simp only [NewNrqlConditionSet] at this
  by_cases hc : hasCounterpart E d.Condition
  · simp [hc, this.2 hc, NewNrqlConditionSet]
  · have hn : ¬ (NrqlConditionSet.mk E).Contains d.Condition = true :=
      fun h2 => hc (this.1 h2)
    simp [hc, hn, NewNrqlConditionSet]

theorem saveConditions_creates_exactly_unmatched_witness :
    (saveConditions storeClient examplePolicy exampleStore).result = Except.ok () ∧
      createCalls (saveConditions storeClient examplePolicy exampleStore).trace =
        (examplePolicy.NrqlConditions.filter
          (fun d => decide (¬ hasCounterpart exampleExternal d.Condition))).map
            (fun d => Call.PostJson (Endpoint.conditionsUnderPolicy 5) d) ∧
      createCalls (saveConditions storeClient examplePolicy exampleStore).trace =
        [Call.PostJson (Endpoint.conditionsUnderPolicy 5) ⟨cpuCondition⟩,
          Call.PostJson (Endpoint.conditionsUnderPolicy 5) ⟨cpuCondition⟩] :=
  ⟨(saveConditions_creates_exactly_unmatched storeClient examplePolicy exampleStore 5
    exampleExternal (by decide) (by decide) (by decide) (by decide)).1,
   (saveConditions_creates_exactly_unmatched storeClient examplePolicy exampleStore 5
    exampleExternal (by decide) (by decide) (by decide) (by decide)).2, by decide⟩

/-- C3: for a policy with a known external id whose desired conditions `D` and external
conditions `E` are equal as condition sets (every element of each has a semantically-equal
counterpart in the other, whatever the order, the duplicates and the external ids),
`saveConditions` issues the initial query only, no delete call and no create call, and
returns nil. With `E` the conditions of `D` this is the empty diff of a set against
itself. -/
theorem saveConditions_equal_sets_no_calls (client : NewrelicClient σ) (policy : AlertPolicy)
    (s : σ) (policyId : Int) (E : List NrqlConditionBody)
    (hid : policy.Policy.Id = some policyId)
    (hget : (getConditions client policyId s).result = Except.ok ⟨E⟩)
    (hED : ∀ c ∈ E, hasCounterpart (policy.NrqlConditions.map (fun d => d.Condition)) c)
    (hDE : ∀ d ∈ policy.NrqlConditions, hasCounterpart E d.Condition) :
    (saveConditions client policy s).result = Except.ok () ∧
      deleteCalls (saveConditions client policy s).trace = [] ∧
      createCalls (saveConditions client policy s).trace = [] ∧
      (saveConditions client policy s).trace.map (fun ev => ev.call) =
        [Call.Get (Endpoint.conditionsOfPolicy policyId)] := by
  rw [saveConditions_noop client policy s policyId ⟨E⟩ hid hget
    (fun c hc => (contains_iff_hasCounterpart _ c).2 (hED c hc))
    (fun d hd => (contains_iff_hasCounterpart _ d.Condition).2 (hDE d hd))]
  simp [deleteCalls, createCalls, Call.isDelete, Call.isCreate]

theorem saveConditions_equal_sets_no_calls_witness :
    (saveConditions storeClient syncedPolicy exampleStore).result = Except.ok () ∧
      deleteCalls (saveConditions storeClient syncedPolicy exampleStore).trace = [] ∧
      createCalls (saveConditions storeClient syncedPolicy exampleStore).trace = [] ∧
      (saveConditions storeClient syncedPolicy exampleStore).trace.map (fun ev => ev.call) =
        [Call.Get (Endpoint.conditionsOfPolicy 5)] :=
  saveConditions_equal_sets_no_calls storeClient syncedPolicy exampleStore 5 exampleExternal
    (by decide) (by decide) (by decide) (by decide)

/-- In every run of `saveConditions`, whichever call the repository itself reads as failed
(see `Event.failure`) is the last call of the run and its error is returned: no further call
is issued after it, so the deletes and creates already applied are not compensated. -/
theorem saveConditions_stops_at_failed_call (client : NewrelicClient σ)
    (policy : AlertPolicy) (s : σ) (before after : List Event) (ev : Event) (e : Error)
    (htrace : (saveConditions client policy s).trace = before ++ ev :: after)
    (hfail : ev.failure = some e) :
    (saveConditions client policy s).result = Except.error (Failure.err e) ∧ after = [] :=
  ⟨(saveConditions_aborts client policy s before after ev e htrace hfail).2,
    (saveConditions_aborts client policy s before after ev e htrace hfail).1⟩

theorem saveConditions_stops_at_failed_call_witness :
    (saveConditions brokenDeleteClient examplePolicy exampleStore).trace =
        [Event.mk (Call.Get (Endpoint.conditionsOfPolicy 5))
          (okReply 200 (Except.ok ⟨exampleExternal⟩))] ++
        Event.mk (Call.Delete (Endpoint.condition 2))
          ⟨none, some (errors.New "delete refused")⟩ :: [] ∧
      (saveConditions brokenDeleteClient examplePolicy exampleStore).result =
        Except.error (Failure.err (errors.New "delete refused")) ∧
      (saveConditions brokenDeleteClient examplePolicy exampleStore).state = exampleStore :=
  ⟨by decide,
    (saveConditions_stops_at_failed_call brokenDeleteClient examplePolicy exampleStore
      [Event.mk (Call.Get (Endpoint.conditionsOfPolicy 5))
        (okReply 200 (Except.ok ⟨exampleExternal⟩))] []
      (Event.mk (Call.Delete (Endpoint.condition 2)) ⟨none, some (errors.New "delete refused")⟩)
      (errors.New "delete refused") (by decide) (by decide)).1,
    by decide⟩

/-! ### The sync against the external store -/

theorem storeClient_getConditions (policyId : Int) (store : Store) :
    getConditions storeClient policyId store =
      ⟨[Event.mk (Call.Get (Endpoint.conditionsOfPolicy policyId))
          (okReply 200 (Except.ok ⟨store.conditionsOf policyId⟩))],
        store, Except.ok ⟨store.conditionsOf policyId⟩⟩ := by
  simp [getConditions, storeClient, okReply]

theorem storeClient_deleteLoop (set : NrqlConditionSet) (cs : List NrqlConditionBody)
    (store : Store) (hids : ∀ c ∈ cs, c.Id ≠ none) :
    (deleteLoop storeClient set cs store).result = Except.ok () ∧
      (deleteLoop storeClient set cs store).state =
        ⟨store.entries.filter (fun entry => decide
            (∀ c ∈ cs.filter (fun c => !set.Contains c), entry.2.Id ≠ c.Id)),
          store.nextId⟩ := by
  induction cs generalizing store with
  | nil => simp [deleteLoop]
  | cons c rest ih =>
    have hrest : ∀ c ∈ rest, c.Id ≠ none := fun x hx => hids x (List.mem_cons_of_mem _ hx)
    rw [deleteLoop_cons]
    by_cases hc : set.Contains c = true
    · simp only [hc, if_true]
      simpa [List.filter_cons, hc] using ih store hrest
    · rw [if_neg hc]
      cases hid : c.Id with
      | none => exact absurd hid (hids c (List.mem_cons_self _ _))
      | some conditionId =>
        have h2 := ih (storeClient.Delete (Endpoint.condition conditionId) store).2 hrest
        have herr : (storeClient.Delete (Endpoint.condition conditionId) store).1.err = none :=
          rfl
        simp only [herr]
        refine ⟨h2.1, ?_⟩
        rw [h2.2]
        simp only [storeClient, List.filter_filter]
        congr 1
        apply List.filter_congr
        intro entry _
        simp [List.filter_cons, hc, hid]
        exact Bool.and_comm _ _

theorem storeClient_createLoop (policyId : Int) (set : NrqlConditionSet)
    (ds : List NrqlCondition) (store : Store) :
    (createLoop storeClient policyId set ds store).result = Except.ok () ∧
      ∃ created : List (Int × NrqlConditionBody),
        (createLoop storeClient policyId set ds store).state.entries =
          store.entries ++ created ∧
        List.Forall₂
          (fun entry d => entry.1 = policyId ∧ entry.2.Query = d.Condition.Query ∧
            entry.2.Thresholds = d.Condition.Thresholds ∧
            entry.2.Enabled = d.Condition.Enabled)
          created (ds.filter (fun d => !set.Contains d.Condition)) := by
  induction ds generalizing store with
  | nil => exact ⟨rfl, [], by simp [createLoop], by simp⟩
  | cons d rest ih =>
    rw [createLoop_cons]
    by_cases hc : set.Contains d.Condition = true
    · simp only [hc, if_true]
      simpa [List.filter_cons, hc] using ih store
    · rw [if_neg hc]
      have hf : (Event.mk (Call.PostJson (Endpoint.conditionsUnderPolicy policyId) d)
          (storeClient.PostJson (Endpoint.conditionsUnderPolicy policyId) d store).1).failure
          = none := by
        simp [Event.failure, storeClient, okReply, responseError]
      simp only [hf]
      obtain ⟨hres, created, hent, hall⟩ :=
        ih (storeClient.PostJson (Endpoint.conditionsUnderPolicy policyId) d store).2
      refine ⟨hres, (policyId, { d.Condition with Id := some store.nextId }) :: created, ?_, ?_⟩
      · rw [hent]
        simp [storeClient]
      · simp only [List.filter_cons, hc]
        simpa using hall

theorem forall₂_exists_right {α β : Type} {R : α → β → Prop} {l1 : List α} {l2 : List β}
    (h : List.Forall₂ R l1 l2) : ∀ a ∈ l1, ∃ b ∈ l2, R a b := by
  induction h with
  | nil => intro a ha; simp at ha
  | cons hab _ ih =>
    intro a ha
    rcases List.mem_cons.1 ha with rfl | ha
    · exact ⟨_, List.mem_cons_self _ _, hab⟩
    · obtain ⟨b, hb, hr⟩ := ih a ha
      exact ⟨b, List.mem_cons_of_mem _ hb, hr⟩

theorem forall₂_exists_left {α β : Type} {R : α → β → Prop} {l1 : List α} {l2 : List β}
    (h : List.Forall₂ R l1 l2) : ∀ b ∈ l2, ∃ a ∈ l1, R a b := by
  induction h with
  | nil => intro b hb; simp at hb
  | cons hab _ ih =>
    intro b hb
    rcases List.mem_cons.1 hb with rfl | hb
    · exact ⟨_, List.mem_cons_self _ _, hab⟩
    · obtain ⟨a, ha, hr⟩ := ih b hb
      exact ⟨a, List.mem_cons_of_mem _ ha, hr⟩

theorem mem_conditionsOf (store : Store) (policyId : Int) (c : NrqlConditionBody) :
    c ∈ store.conditionsOf policyId ↔ (policyId, c) ∈ store.entries := by
  unfold Store.conditionsOf
  constructor
  · intro h
    obtain ⟨entry, hentry, rfl⟩ := List.mem_map.1 h
    obtain ⟨hmem, hpid⟩ := List.mem_filter.1 hentry
    have : entry.1 = policyId := by simpa using hpid
    rw [← this]
    exact hmem
  · intro h
    exact List.mem_map.2 ⟨(policyId, c), List.mem_filter.2 ⟨h, by simp⟩, rfl⟩

/-- The first run against a well-formed store succeeds; afterwards the store holds the
entries whose id is not that of an unmatched external condition, followed by one new entry
under the policy for each unmatched desired condition. -/
theorem storeClient_saveConditions (store : Store) (policy : AlertPolicy) (policyId : Int)
    (hwf : store.WellFormed) (hid : policy.Policy.Id = some policyId) :
    (saveConditions storeClient policy store).result = Except.ok () ∧
      ∃ created : List (Int × NrqlConditionBody),
        (saveConditions storeClient policy store).state.entries =
          store.entries.filter (fun entry => decide
            (∀ c ∈ (store.conditionsOf policyId).filter
              (fun c => !(NewNrqlConditionSetFromSlice policy.NrqlConditions).Contains c),
              entry.2.Id ≠ c.Id)) ++ created ∧
        List.Forall₂
          (fun entry d => entry.1 = policyId ∧ entry.2.Query = d.Condition.Query ∧
            entry.2.Thresholds = d.Condition.Thresholds ∧
            entry.2.Enabled = d.Condition.Enabled)
          created (policy.NrqlConditions.filter (fun d =>
            !(NewNrqlConditionSet ⟨store.conditionsOf policyId⟩).Contains d.Condition)) := by
  have hget : (getConditions storeClient policyId store).result =
      Except.ok ⟨store.conditionsOf policyId⟩ := by
    rw [storeClient_getConditions]
  have hids : ∀ c ∈ store.conditionsOf policyId, c.Id ≠ none := by
    intro c hc hnone
    obtain ⟨conditionId, hsome, _⟩ := hwf.1 _ ((mem_conditionsOf store policyId c).1 hc)
    simp [hnone] at hsome
  have hstate : (storeClient.Get (Endpoint.conditionsOfPolicy policyId) store).2 = store := rfl
  have hA := storeClient_deleteLoop (NewNrqlConditionSetFromSlice policy.NrqlConditions)
    (store.conditionsOf policyId) store hids
  rw [saveConditions_eq_of_get storeClient policy store policyId _ hid hget]
  simp only [hstate, hA.1, hA.2]
  obtain ⟨hres, created, hent, hall⟩ := storeClient_createLoop policyId
    (NewNrqlConditionSet ⟨store.conditionsOf policyId⟩) policy.NrqlConditions
    ⟨store.entries.filter (fun entry => decide
      (∀ c ∈ (store.conditionsOf policyId).filter
        (fun c => !(NewNrqlConditionSetFromSlice policy.NrqlConditions).Contains c),
        entry.2.Id ≠ c.Id)), store.nextId⟩
  exact ⟨hres, created, hent, hall⟩

/-- C4: idempotence of the sync. Against an external store that removes each deleted
condition and stores each created condition under a fresh id (so that every stored condition
carries an id of its own), a first run of `saveConditions` for a policy with a known
external id succeeds, and a second run with the same desired conditions against the
resulting store issues no delete call and no create call, returns nil and leaves the store
as the first run left it. -/
theorem saveConditions_second_run_no_calls (store : Store) (policy : AlertPolicy)
    (policyId : Int) (hwf : store.WellFormed) (hid : policy.Policy.Id = some policyId) :
    (saveConditions storeClient policy store).result = Except.ok () ∧
      (saveConditions storeClient policy
        (saveConditions storeClient policy store).state).result = Except.ok () ∧
      deleteCalls (saveConditions storeClient policy
        (saveConditions storeClient policy store).state).trace = [] ∧
      createCalls (saveConditions storeClient policy
        (saveConditions storeClient policy store).state).trace = [] ∧
      (saveConditions storeClient policy
        (saveConditions storeClient policy store).state).state =
          (saveConditions storeClient policy store).state := by
  obtain ⟨hres, created, hent, hall⟩ :=
    storeClient_saveConditions store policy policyId hwf hid
  refine ⟨hres, ?_⟩
  have hget2 : (getConditions storeClient policyId
      (saveConditions storeClient policy store).state).result =
      Except.ok ⟨(saveConditions storeClient policy store).state.conditionsOf policyId⟩ := by
    rw [storeClient_getConditions]
  have h1 : ∀ c ∈ (saveConditions storeClient policy store).state.conditionsOf policyId,
      (NewNrqlConditionSetFromSlice policy.NrqlConditions).Contains c = true := by
    intro c hc
    have hmem := (mem_conditionsOf _ _ c).1 hc
    rw [hent] at hmem
    rcases List.mem_append.1 hmem with hm | hm
    · obtain ⟨hin, hkeep⟩ := List.mem_filter.1 hm
      have hkeep2 := of_decide_eq_true hkeep
      by_contra hcon
      have hdel : c ∈ (store.conditionsOf policyId).filter
          (fun c => !(NewNrqlConditionSetFromSlice policy.NrqlConditions).Contains c) :=
        List.mem_filter.2 ⟨(mem_conditionsOf _ _ c).2 hin, by simpa using hcon⟩
      exact hkeep2 c hdel rfl
    · obtain ⟨d, hd, hR⟩ := forall₂_exists_right hall _ hm
      have hdD : d ∈ policy.NrqlConditions := (List.mem_filter.1 hd).1
      rw [contains_iff_hasCounterpart]
      exact ⟨d.Condition, List.mem_map.2 ⟨d, hdD, rfl⟩, hR.2.1.symm, hR.2.2.1.symm,
        hR.2.2.2.symm⟩
  have h2 : ∀ d ∈ policy.NrqlConditions,
      (NewNrqlConditionSet
        ⟨(saveConditions storeClient policy store).state.conditionsOf policyId⟩).Contains
          d.Condition = true := by
    intro d hd
    rw [contains_iff_hasCounterpart]
    by_cases hc : (NewNrqlConditionSet ⟨store.conditionsOf policyId⟩).Contains d.Condition
        = true
    · obtain ⟨e, heE, hq, ht, hen⟩ := (contains_iff_hasCounterpart _ _).1 hc
      have heE2 : (policyId, e) ∈ store.entries := (mem_conditionsOf _ _ e).1 heE
      refine ⟨e, ?_, hq, ht, hen⟩
      show e ∈ (saveConditions storeClient policy store).state.conditionsOf policyId
      rw [mem_conditionsOf, hent]
      apply List.mem_append_left
      refine List.mem_filter.2 ⟨heE2, ?_⟩
      apply decide_eq_true
      intro x hx hidx
      obtain ⟨hxE, hxn⟩ := List.mem_filter.1 hx
      have hxE2 : (policyId, x) ∈ store.entries := (mem_conditionsOf _ _ x).1 hxE
      have heq : (policyId, e) = (policyId, x) :=
        List.inj_on_of_nodup_map hwf.2 heE2 hxE2 hidx
      have hex : e = x := (Prod.mk.inj heq).2
      subst hex
      have hcont : (NewNrqlConditionSetFromSlice policy.NrqlConditions).Contains e = true :=
        (contains_iff_hasCounterpart _ _).2
          ⟨d.Condition, List.mem_map.2 ⟨d, hd, rfl⟩, hq.symm, ht.symm, hen.symm⟩
      simp [hcont] at hxn
    · have hdc : d ∈ policy.NrqlConditions.filter (fun d =>
          !(NewNrqlConditionSet ⟨store.conditionsOf policyId⟩).Contains d.Condition) :=
        List.mem_filter.2 ⟨hd, by simpa using hc⟩
      obtain ⟨entry, hentry, hR⟩ := forall₂_exists_left hall d hdc
      refine ⟨entry.2, ?_, hR.2.1, hR.2.2.1, hR.2.2.2⟩
      show entry.2 ∈ (saveConditions storeClient policy store).state.conditionsOf policyId
      rw [mem_conditionsOf, hent]
      apply List.mem_append_right
      have hpair : (policyId, entry.2) = entry := by rw [← hR.1]
      rw [hpair]
      exact hentry
  rw [saveConditions_noop storeClient policy _ policyId _ hid hget2 h1 h2]
  simp [deleteCalls, createCalls, Call.isDelete, Call.isCreate, storeClient]

theorem saveConditions_second_run_no_calls_witness :
    (saveConditions storeClient examplePolicy exampleStore).result = Except.ok () ∧
      (saveConditions storeClient examplePolicy
        (saveConditions storeClient examplePolicy exampleStore).state).result = Except.ok () ∧
      deleteCalls (saveConditions storeClient examplePolicy
        (saveConditions storeClient examplePolicy exampleStore).state).trace = [] ∧
      createCalls (saveConditions storeClient examplePolicy
        (saveConditions storeClient examplePolicy exampleStore).state).trace = [] ∧
      (saveConditions storeClient examplePolicy
        (saveConditions storeClient examplePolicy exampleStore).state).state =
          (saveConditions storeClient examplePolicy exampleStore).state :=
  saveConditions_second_run_no_calls exampleStore examplePolicy 5
    ⟨by decide, by decide⟩ (by decide)

end newrelic

namespace k8s

open types v1alpha1 client_go

variable {S T σ : Type}

theorem GetPolicy_eq (c : Client (Object S T) σ) (name : NamespacedName) (s : σ) :
    GetPolicy c name s =
      ⟨[⟨Call.Get name, match (c.Get name s).1 with
          | Except.error err => some err
          | Except.ok _ => none⟩],
        (c.Get name s).2,
        match (c.Get name s).1 with
        | Except.error err => Except.error (Failure.err err)
        | Except.ok found => Except.ok found⟩ := by
  unfold GetPolicy
  simp only []
  split <;> simp_all

/-- Whichever status write of a run of `updateWithRetries` fails with an error that is no
conflict, it is the last call of the run and its error is the result. -/
theorem updateWithRetries_non_conflict (c : Client (Object S T) σ) (fuel : Nat)
    (key : NamespacedName) (policy : Object S T) (s : σ)
    (before after : List (Event (Object S T))) (obj : Object S T) (e : Error)
    (htrace : (updateWithRetries c fuel key policy s).trace =
      before ++ ⟨Call.StatusUpdate obj, some e⟩ :: after)
    (hnc : errors.IsConflict e = false) :
    (updateWithRetries c fuel key policy s).result = Except.error (Failure.err e) ∧
      after = [] := by
  induction fuel generalizing policy s before with
  | zero => simp [updateWithRetries] at htrace
  | succ fuel ih =>
    rw [updateWithRetries] at htrace ⊢
    simp only [] at htrace ⊢
    cases herr : (c.StatusUpdate policy s).1.1 with
    | none =>
      simp only [herr] at htrace ⊢
      cases before with
      | nil => simp at htrace
      | cons b bs => simp at htrace
    | some err =>
      simp only [herr] at htrace ⊢
      by_cases hconf : errors.IsConflict err = true
      · simp only [hconf, if_true] at htrace ⊢
        rw [GetPolicy_eq] at htrace ⊢
        simp only [] at htrace ⊢
        cases hget : (c.Get key (c.StatusUpdate policy s).2).1 with
        | error gerr =>
          simp only [hget] at htrace
          cases before with
          | nil =>
            simp at htrace
            rw [htrace.1.2] at hconf
            rw [hconf] at hnc
            cases hnc
          | cons b bs =>
            cases bs with
            | nil => simp at htrace
            | cons b2 bs2 => simp at htrace
        | ok serverPolicy =>
          simp only [hget] at htrace ⊢
          cases before with
          | nil =>
            simp at htrace
            rw [htrace.1.2] at hconf
            rw [hconf] at hnc
            cases hnc
          | cons b bs =>
            cases bs with
            | nil => simp at htrace
            | cons b2 bs2 =>
              simp at htrace
              have h := ih _ _ bs2 htrace.2.2
              rw [h.1]
              exact ⟨rfl, h.2⟩
      · simp only [hconf] at htrace ⊢
        cases before with
        | nil =>
          simp at htrace
          obtain ⟨⟨_, h2⟩, h3⟩ := htrace
          subst h2
          exact ⟨by simp, h3⟩
        | cons b bs => simp at htrace

/-- C6: status-conflict retry. For every policy `p` and every store in which the first
status write is rejected with a conflict, the re-fetch returns the current object `server`
and the second status write succeeds, `UpdatePolicyStatus` returns no error, and its calls
are the rejected write of `p`, the re-fetch by the key of `p`, and the write of `server`
with only its status replaced by that of `p`: the spec, the metadata and the resource
version written are those of `server`. -/
theorem UpdatePolicyStatus_conflict_then_success (c : Client AlertPolicy σ) (fuel : Nat)
    (p server p1 written : AlertPolicy) (rejected : Error) (s s1 s2 s3 : σ)
    (hfirst : c.StatusUpdate p s = ((some rejected, p1), s1))
    (hconflict : errors.IsConflict rejected = true)
    (hget : c.Get ⟨p.ObjectMeta.Namespace, p.ObjectMeta.Name⟩ s1 = (Except.ok server, s2))
    (hsecond : c.StatusUpdate { server with Status := p.Status } s2 = ((none, written), s3)) :
    (UpdatePolicyStatus c (fuel + 2) p s).result = Except.ok p1 ∧
      (UpdatePolicyStatus c (fuel + 2) p s).trace =
        [⟨Call.StatusUpdate p, some rejected⟩,
          ⟨Call.Get ⟨p.ObjectMeta.Namespace, p.ObjectMeta.Name⟩, none⟩,
          ⟨Call.StatusUpdate
            { ObjectMeta := server.ObjectMeta, Spec := server.Spec, Status := p.Status },
            none⟩] ∧
      (UpdatePolicyStatus c (fuel + 2) p s).state = s3 := by
  unfold UpdatePolicyStatus
  simp only []
  rw [updateWithRetries]
  simp only [hfirst, hconflict, if_true, GetPolicy_eq, hget]
  rw [updateWithRetries]
  simp [hsecond]

theorem UpdatePolicyStatus_conflict_then_success_witness :
    ((UpdatePolicyStatus apiserver.client 2 stalePolicy exampleServer).result =
        Except.ok stalePolicy ∧
      (UpdatePolicyStatus apiserver.client 2 stalePolicy exampleServer).trace =
        [⟨Call.StatusUpdate stalePolicy, some apiserver.conflict⟩,
          ⟨Call.Get ⟨"default", "cpu-alerts"⟩, none⟩,
          ⟨Call.StatusUpdate
            { ObjectMeta := serverPolicy.ObjectMeta, Spec := serverPolicy.Spec,
              Status := stalePolicy.Status },
            none⟩] ∧
      (UpdatePolicyStatus apiserver.client 2 stalePolicy exampleServer).state =
        (apiserver.updateStatus { serverPolicy with Status := stalePolicy.Status }
          exampleServer).2) ∧
      (UpdatePolicyStatus apiserver.client 2 stalePolicy exampleServer).state.stored =
        some
          { ObjectMeta := { serverPolicy.ObjectMeta with ResourceVersion := 3 },
            Spec := serverPolicy.Spec,
            Status := stalePolicy.Status } :=
  ⟨UpdatePolicyStatus_conflict_then_success apiserver.client 0 stalePolicy serverPolicy
      stalePolicy
      { ObjectMeta := { serverPolicy.ObjectMeta with ResourceVersion := 3 },
        Spec := serverPolicy.Spec,
        Status := stalePolicy.Status }
      apiserver.conflict exampleServer exampleServer exampleServer
      (apiserver.updateStatus { serverPolicy with Status := stalePolicy.Status }
        exampleServer).2
      (by decide) (by decide) (by decide) (by decide),
    by decide⟩

/-- C7: for every policy, store and run of `UpdatePolicyStatus`, if a status write fails
with an error that is not a conflict, that write is the last call of the run (no re-fetch
and no further write follows it) and `UpdatePolicyStatus` returns exactly that error. -/
theorem UpdatePolicyStatus_non_conflict_error (c : Client AlertPolicy σ) (fuel : Nat)
    (p : AlertPolicy) (s : σ) (before after : List (Event AlertPolicy)) (obj : AlertPolicy)
    (e : Error)
    (htrace : (UpdatePolicyStatus c fuel p s).trace =
      before ++ ⟨Call.StatusUpdate obj, some e⟩ :: after)
    (hnc : errors.IsConflict e = false) :
    (UpdatePolicyStatus c fuel p s).result = Except.error (Failure.err e) ∧ after = [] :=
  updateWithRetries_non_conflict c fuel _ p s before after obj e htrace hnc

theorem UpdatePolicyStatus_non_conflict_error_witness :
    (UpdatePolicyStatus apiserver.client 5 stalePolicy failingServer).trace =
        [] ++ [⟨Call.StatusUpdate stalePolicy, some (errors.New "etcd unavailable")⟩] ∧
      (UpdatePolicyStatus apiserver.client 5 stalePolicy failingServer).result =
        Except.error (Failure.err (errors.New "etcd unavailable")) :=
  ⟨by decide,
    (UpdatePolicyStatus_non_conflict_error apiserver.client 5 stalePolicy failingServer
      [] [] stalePolicy (errors.New "etcd unavailable") (by decide) (by decide)).1⟩

end k8s

namespace controller

open types v1alpha1 apiserver

variable {σ : Type}

/-- C9: on the deletion path `deleteChannel` first calls the external deletion. When the
external deletion fails, that call is the only call, its error is returned and the state is
the one the external deletion left: the finalizer-clearing update `DeleteChannel` is not
issued, so the finalizer stays in place. When it succeeds, the finalizer-clearing update
follows it, on the state the external deletion left. -/
theorem deleteChannel_external_deletion_first (k8s : K8sClient σ)
    (newrelic : ChannelRepository σ) (channel : domain.NotificationChannel)
    (inst : NotificationChannel) (s : σ) :
    (∀ f, (newrelic.Delete channel s).1 = Except.error f →
        deleteChannel k8s newrelic channel inst s =
          ⟨[⟨Call.Delete channel, some f⟩], (newrelic.Delete channel s).2, Except.error f⟩) ∧
      (∀ u, (newrelic.Delete channel s).1 = Except.ok u →
        (deleteChannel k8s newrelic channel inst s).trace =
            [⟨Call.Delete channel, none⟩,
              ⟨Call.DeleteChannel inst,
                failureOf (k8s.DeleteChannel inst (newrelic.Delete channel s).2).1⟩] ∧
          (deleteChannel k8s newrelic channel inst s).state =
            (k8s.DeleteChannel inst (newrelic.Delete channel s).2).2) := by
  constructor
  · intro f hf
    unfold deleteChannel
    simp [hf, failureOf]
  · intro u hu
    unfold deleteChannel
    simp only [hu, failureOf]
    cases (k8s.DeleteChannel inst (newrelic.Delete channel s).2).1 <;> simp

theorem deleteChannel_external_deletion_first_witness :
    deleteChannel (channelClient 3) (externalRepository unavailableRepository)
        (NewChannel deletingChannel ⟨[]⟩) deletingChannel deletingWorld =
      ⟨[⟨Call.Delete (NewChannel deletingChannel ⟨[]⟩),
          some (Failure.err (errors.New "service unavailable"))⟩],
        deletingWorld, Except.error (Failure.err (errors.New "service unavailable"))⟩ ∧
      (deleteChannel (channelClient 3) (externalRepository unavailableRepository)
        (NewChannel deletingChannel ⟨[]⟩) deletingChannel deletingWorld).state.server.stored =
          some deletingChannel ∧
      hasFinalizer deletingChannel ∧
      (deleteChannel (channelClient 3) (externalRepository assigningRepository)
        (NewChannel deletingChannel ⟨[]⟩) deletingChannel deletingWorld).trace =
          [⟨Call.Delete (NewChannel deletingChannel ⟨[]⟩), none⟩,
            ⟨Call.DeleteChannel deletingChannel, none⟩] :=
  ⟨(deleteChannel_external_deletion_first (channelClient 3)
      (externalRepository unavailableRepository) (NewChannel deletingChannel ⟨[]⟩)
      deletingChannel deletingWorld).1 _ (by decide),
    by decide, by decide,
    ((deleteChannel_external_deletion_first (channelClient 3)
      (externalRepository assigningRepository) (NewChannel deletingChannel ⟨[]⟩)
      deletingChannel deletingWorld).2 () (by decide)).1⟩

/-- C10: for every request, if fetching the resource reports NotFound, `Reconcile` returns
success (no error, no requeue) and the fetch is its only call: no policy selection, no
finalizer update, no status write, no external save or delete. -/
theorem Reconcile_not_found_is_noop (k8s : K8sClient σ) (newrelic : ChannelRepository σ)
    (request : reconcile.Request) (s : σ) (err : Error)
    (hget : (k8s.GetChannel request.NamespacedName s).1 = Except.error (Failure.err err))
    (hnf : errors.IsNotFound err = true) :
    (Reconcile k8s newrelic request s).result = Except.ok { Requeue := false } ∧
      (Reconcile k8s newrelic request s).trace =
        [⟨Call.GetChannel request.NamespacedName, some (Failure.err err)⟩] ∧
      (Reconcile k8s newrelic request s).state =
        (k8s.GetChannel request.NamespacedName s).2 := by
  unfold Reconcile
  simp [hget, hnf, failureOf, NewReconcileResult]

theorem Reconcile_not_found_is_noop_witness :
    (Reconcile (channelClient 3) (externalRepository assigningRepository) exampleRequest
        emptyWorld).result = Except.ok { Requeue := false } ∧
      (Reconcile (channelClient 3) (externalRepository assigningRepository) exampleRequest
        emptyWorld).trace =
        [⟨Call.GetChannel exampleRequest.NamespacedName, some (Failure.err notFound)⟩] ∧
      (Reconcile (channelClient 3) (externalRepository assigningRepository) exampleRequest
        emptyWorld).state =
        ((channelClient 3).GetChannel exampleRequest.NamespacedName emptyWorld).2 :=
  Reconcile_not_found_is_noop (channelClient 3) (externalRepository assigningRepository)
    exampleRequest emptyWorld notFound (by decide) (by decide)

end controller

namespace apiserver

open types v1alpha1 client_go

variable {S T : Type}

theorem get_state (key : NamespacedName) (srv : ApiServer S T) :
    (get key srv).2.stored = srv.stored ∧ (get key srv).2.written = srv.written := by
  unfold get
  split
  · exact ⟨rfl, rfl⟩
  · split
    · split <;> exact ⟨rfl, rfl⟩
    · exact ⟨rfl, rfl⟩

/-- An update either fails and changes neither the resource nor the record, or succeeds and
leaves a resource with the finalizers it was sent, recorded as a write outside the status
subresource. -/
theorem update_state (obj : Object S T) (srv : ApiServer S T) :
    ((update obj srv).1.1 ≠ none ∧ (update obj srv).2.stored = srv.stored ∧
        (update obj srv).2.written = srv.written) ∨
      ∃ next : Object S T, (update obj srv).1.1 = none ∧
        (update obj srv).2.stored = some next ∧
        next.ObjectMeta.Finalizers = obj.ObjectMeta.Finalizers ∧
        (update obj srv).2.written = srv.written ++ [⟨false, obj, next⟩] := by
  unfold update
  split
  · exact Or.inl ⟨by simp, rfl, rfl⟩
  · split
    · split
      · split
        · exact Or.inr ⟨_, rfl, rfl, rfl, rfl⟩
        · exact Or.inl ⟨by simp, rfl, rfl⟩
      · exact Or.inl ⟨by simp, rfl, rfl⟩
    · exact Or.inl ⟨by simp, rfl, rfl⟩

/-- A status write either fails and changes neither the resource nor the record, or
succeeds and leaves the resource with the finalizers it had, recorded as a write through
the status subresource. -/
theorem updateStatus_state (obj : Object S T) (srv : ApiServer S T) :
    ((updateStatus obj srv).1.1 ≠ none ∧ (updateStatus obj srv).2.stored = srv.stored ∧
        (updateStatus obj srv).2.written = srv.written) ∨
      ∃ cur next : Object S T, (updateStatus obj srv).1.1 = none ∧
        srv.stored = some cur ∧
        (updateStatus obj srv).2.stored = some next ∧
        next.ObjectMeta.Finalizers = cur.ObjectMeta.Finalizers ∧
        (updateStatus obj srv).2.written = srv.written ++ [⟨true, obj, next⟩] := by
  unfold updateStatus
  split
  · exact Or.inl ⟨by simp, rfl, rfl⟩
  · split
    · rename_i cur hcur
      split
      · split
        · exact Or.inr ⟨cur, _, rfl, hcur, rfl, rfl, rfl⟩
        · exact Or.inl ⟨by simp, rfl, rfl⟩
      · exact Or.inl ⟨by simp, rfl, rfl⟩
    · exact Or.inl ⟨by simp, rfl, rfl⟩

end apiserver

namespace controller

open types v1alpha1 apiserver

theorem getPolicy_server (name : NamespacedName)
    (srv : ApiServer NotificationChannelSpec NotificationChannelStatus) :
    (k8s.GetPolicy apiserver.client name srv).state.stored = srv.stored ∧
      (k8s.GetPolicy apiserver.client name srv).state.written = srv.written := by
  rw [k8s.GetPolicy_eq]
  exact get_state name srv

theorem setFinalizer_log (inst : NotificationChannel)
    (srv : ApiServer NotificationChannelSpec NotificationChannelStatus)
    (h : LogKeepsFinalizer srv) :
    LogKeepsFinalizer (k8s.SetFinalizer apiserver.client inst srv).state ∧
      ((k8s.SetFinalizer apiserver.client inst srv).result = Except.ok () →
        StoredHasFinalizer (k8s.SetFinalizer apiserver.client inst srv).state) := by
  unfold k8s.SetFinalizer
  simp only []
  rcases update_state
    ({ inst with ObjectMeta := { inst.ObjectMeta with Finalizers := ["newrelic"] } } :
      NotificationChannel) srv with ⟨herr, hst, hwr⟩ | ⟨next, herr, hst, hfin, hwr⟩
  · cases hres : (apiserver.client.Update
        ({ inst with ObjectMeta := { inst.ObjectMeta with Finalizers := ["newrelic"] } } :
          NotificationChannel) srv).1.1 with
    | none => exact absurd hres herr
    | some err =>
      simp only []
      refine ⟨?_, by simp⟩
      intro wr hwr2
      exact h wr (by rw [← hwr]; exact hwr2)
  · have hres : (apiserver.client.Update
        ({ inst with ObjectMeta := { inst.ObjectMeta with Finalizers := ["newrelic"] } } :
          NotificationChannel) srv).1.1 = none := herr
    simp only [hres]
    refine ⟨?_, ?_⟩
    · intro wr hwr2
      have hmem := hwr2
      change wr ∈ (update _ srv).2.written at hmem
      rw [hwr] at hmem
      rcases List.mem_append.1 hmem with hold | hnew
      · exact h wr hold
      · rw [List.mem_singleton.1 hnew]
        refine ⟨fun _ => ?_, fun _ => Or.inl rfl⟩
        show "newrelic" ∈ next.ObjectMeta.Finalizers
        rw [hfin]
        simp
    · intro _ cur hcur
      have : cur = next := by
        have h2 : some cur = some next := by rw [← hcur]; exact hst
        exact Option.some.inj h2
      rw [this]
      show "newrelic" ∈ next.ObjectMeta.Finalizers
      rw [hfin]
      simp

theorem deletePolicy_log (inst : NotificationChannel)
    (srv : ApiServer NotificationChannelSpec NotificationChannelStatus)
    (h : LogKeepsFinalizer srv) :
    LogKeepsFinalizer (k8s.DeletePolicy apiserver.client inst srv).state := by
  unfold k8s.DeletePolicy
  simp only []
  rcases update_state
    ({ inst with ObjectMeta := { inst.ObjectMeta with Finalizers := [] } } :
      NotificationChannel) srv with ⟨herr, hst, hwr⟩ | ⟨next, herr, hst, hfin, hwr⟩
  · cases hres : (apiserver.client.Update
        ({ inst with ObjectMeta := { inst.ObjectMeta with Finalizers := [] } } :
          NotificationChannel) srv).1.1 with
    | none => exact absurd hres herr
    | some err =>
      simp only []
      intro wr hwr2
      exact h wr (by rw [← hwr]; exact hwr2)
  · have hres : (apiserver.client.Update
        ({ inst with ObjectMeta := { inst.ObjectMeta with Finalizers := [] } } :
          NotificationChannel) srv).1.1 = none := herr
    simp only [hres]
    intro wr hwr2
    have hmem := hwr2
    change wr ∈ (update _ srv).2.written at hmem
    rw [hwr] at hmem
    rcases List.mem_append.1 hmem with hold | hnew
    · exact h wr hold
    · rw [List.mem_singleton.1 hnew]
      refine ⟨fun hor => ?_, fun _ => Or.inr rfl⟩
      rcases hor with hor | hor
      · cases hor
      · simp at hor

theorem updateWithRetries_log (fuel : Nat) (key : NamespacedName) (policy : NotificationChannel)
    (srv : ApiServer NotificationChannelSpec NotificationChannelStatus)
    (h : LogKeepsFinalizer srv) (hm : StoredHasFinalizer srv) :
    LogKeepsFinalizer (k8s.updateWithRetries apiserver.client fuel key policy srv).state ∧
      StoredHasFinalizer (k8s.updateWithRetries apiserver.client fuel key policy srv).state := by
  induction fuel generalizing policy srv with
  | zero => exact ⟨h, hm⟩
  | succ fuel ih =>
    rw [k8s.updateWithRetries]
    simp only []
    rcases updateStatus_state policy srv with
      ⟨herr, hst, hwr⟩ | ⟨cur, next, herr, hcur, hst, hfin, hwr⟩
    · have hlog : LogKeepsFinalizer (apiserver.client.StatusUpdate policy srv).2 := by
        intro wr hwr2
        exact h wr (by rw [← hwr]; exact hwr2)
      have hmark : StoredHasFinalizer (apiserver.client.StatusUpdate policy srv).2 := by
        intro o ho
        exact hm o (by rw [← hst]; exact ho)
      cases hres : (apiserver.client.StatusUpdate policy srv).1.1 with
      | none => exact absurd hres herr
      | some err =>
        simp only []
        split
        · have hg := getPolicy_server key (apiserver.client.StatusUpdate policy srv).2
          have hlog2 : LogKeepsFinalizer
              (k8s.GetPolicy apiserver.client key
                (apiserver.client.StatusUpdate policy srv).2).state := by
            intro wr hwr2
            exact hlog wr (by rw [← hg.2]; exact hwr2)
          have hmark2 : StoredHasFinalizer
              (k8s.GetPolicy apiserver.client key
                (apiserver.client.StatusUpdate policy srv).2).state := by
            intro o ho
            exact hmark o (by rw [← hg.1]; exact ho)
          split
          · exact ⟨hlog2, hmark2⟩
          · exact ih _ _ hlog2 hmark2
        · exact ⟨hlog, hmark⟩
    · have hres : (apiserver.client.StatusUpdate policy srv).1.1 = none := herr
      simp only [hres]
      have hnext : hasFinalizer next := by
        show "newrelic" ∈ next.ObjectMeta.Finalizers
        rw [hfin]
        exact hm cur hcur
      refine ⟨?_, ?_⟩
      · intro wr hwr2
        have hmem : wr ∈ srv.written ++ [⟨true, policy, next⟩] := by rw [← hwr]; exact hwr2
        rcases List.mem_append.1 hmem with hold | hnew
        · exact h wr hold
        · rw [List.mem_singleton.1 hnew]
          exact ⟨fun _ => hnext, fun hfalse => by cases hfalse⟩
      · intro o ho
        have : o = next := by
          have h2 : some o = some next := by rw [← ho]; exact hst
          exact Option.some.inj h2
        rw [this]
        exact hnext

/-! ### What `Reconcile` preserves -/

variable {σ : Type}

theorem deleteChannel_preserves (k8s : K8sClient σ) (newrelic : ChannelRepository σ)
    (P : σ → Prop)
    (hdel : ∀ channel s, P s → P (newrelic.Delete channel s).2)
    (hclear : ∀ inst s, P s → P (k8s.DeleteChannel inst s).2)
    (channel : domain.NotificationChannel) (inst : NotificationChannel) (s : σ) (h : P s) :
    P (deleteChannel k8s newrelic channel inst s).state := by
  unfold deleteChannel
  simp only []
  split
  · exact hdel _ _ h
  · split <;> exact hclear _ _ (hdel _ _ h)

/-- A property `P` of the state that the finalizer-setting update preserves and, when it
succeeds, strengthens to `Q`, with `Q` preserved by the status writes and the external save,
is preserved by the branch of `Reconcile` for a live resource. -/
theorem saveChannel_preserves (k8s : K8sClient σ) (newrelic : ChannelRepository σ)
    (P Q : σ → Prop) (hQP : ∀ s, Q s → P s)
    (hfin : ∀ inst s, P s → P (k8s.SetFinalizer inst s).2 ∧
      ∀ inst1, (k8s.SetFinalizer inst s).1 = Except.ok inst1 → Q (k8s.SetFinalizer inst s).2)
    (hup : ∀ inst s, Q s → Q (k8s.UpdateChannelStatus inst s).2)
    (hsave : ∀ channel s, Q s → Q (newrelic.Save channel s).2)
    (channel : domain.NotificationChannel) (inst : NotificationChannel) (s : σ) (h : P s) :
    P (saveChannel k8s newrelic channel inst s).state := by
  unfold saveChannel
  simp only []
  split
  · exact (hfin inst s h).1
  · rename_i inst1 hok
    have hq := (hfin inst s h).2 inst1 hok
    split
    · exact hQP _ (hup _ _ hq)
    · split
      · split <;> exact hQP _ (hup _ _ (hsave _ _ (hup _ _ hq)))
      · exact hQP _ (hsave _ _ (hup _ _ hq))
      · split <;> exact hQP _ (hup _ _ (hsave _ _ (hup _ _ hq)))

theorem Reconcile_preserves (k8s : K8sClient σ) (newrelic : ChannelRepository σ)
    (P Q : σ → Prop) (hQP : ∀ s, Q s → P s)
    (hget : ∀ name s, P s → P (k8s.GetChannel name s).2)
    (hpol : ∀ inst s, P s → P (k8s.GetPolicies inst s).2)
    (hfin : ∀ inst s, P s → P (k8s.SetFinalizer inst s).2 ∧
      ∀ inst1, (k8s.SetFinalizer inst s).1 = Except.ok inst1 → Q (k8s.SetFinalizer inst s).2)
    (hup : ∀ inst s, Q s → Q (k8s.UpdateChannelStatus inst s).2)
    (hsave : ∀ channel s, Q s → Q (newrelic.Save channel s).2)
    (hdel : ∀ channel s, P s → P (newrelic.Delete channel s).2)
    (hclear : ∀ inst s, P s → P (k8s.DeleteChannel inst s).2)
    (request : reconcile.Request) (s : σ) (h : P s) :
    P (Reconcile k8s newrelic request s).state := by
  unfold Reconcile
  simp only []
  split
  · split <;> exact hget _ _ h
  · exact hget _ _ h
  · split
    · exact hpol _ _ (hget _ _ h)
    · split
      · exact deleteChannel_preserves k8s newrelic P hdel hclear _ _ _ (hpol _ _ (hget _ _ h))
      · exact saveChannel_preserves k8s newrelic P Q hQP hfin hup hsave _ _ _
          (hpol _ _ (hget _ _ h))

/-! ### The finalizer invariant over sequences of reconciles -/

variable {σn : Type}

theorem Reconcile_keeps_log (repo : ChannelRepository σn) (fuel : Nat)
    (request : reconcile.Request) (w : World σn) (h : LogKeepsFinalizer w.server) :
    LogKeepsFinalizer
      (Reconcile (channelClient fuel) (externalRepository repo) request w).state.server := by
  apply Reconcile_preserves (channelClient fuel) (externalRepository repo)
    (fun w => LogKeepsFinalizer w.server)
    (fun w => LogKeepsFinalizer w.server ∧ StoredHasFinalizer w.server)
  · intro s hs
    exact hs.1
  · intro name s hs
    show LogKeepsFinalizer (k8s.GetPolicy apiserver.client name s.server).state
    intro wr hwr
    exact hs wr (by rw [← (getPolicy_server name s.server).2]; exact hwr)
  · intro inst s hs
    exact hs
  · intro inst s hs
    have hset := setFinalizer_log inst s.server hs
    refine ⟨hset.1, fun inst1 hok => ⟨hset.1, hset.2 ?_⟩⟩
    have hok2 : (match (k8s.SetFinalizer apiserver.client inst s.server).result with
        | Except.error f => (Except.error f : Except Failure NotificationChannel)
        | Except.ok _ => Except.ok inst) = Except.ok inst1 := hok
    cases hres : (k8s.SetFinalizer apiserver.client inst s.server).result with
    | error f =>
      rw [hres] at hok2
      cases hok2
    | ok u => rfl
  · intro inst s hs
    exact updateWithRetries_log fuel _ inst s.server hs.1 hs.2
  · intro channel s hs
    exact hs
  · intro channel s hs
    exact hs
  · intro inst s hs
    exact deletePolicy_log inst s.server hs
  · exact h

theorem step_keeps_log (repo : ChannelRepository σn) (fuel : Nat)
    (request : reconcile.Request) (st : Step) (w : World σn)
    (h : LogKeepsFinalizer w.server) :
    LogKeepsFinalizer (step repo fuel request st w).server := by
  cases st with
  | reconcile => exact Reconcile_keeps_log repo fuel request w h
  | requestDeletion time =>
    show LogKeepsFinalizer (requestDeletion time w.server)
    unfold requestDeletion
    split
    · exact h
    · exact h
  | remove =>
    show LogKeepsFinalizer (remove w.server)
    unfold remove
    split
    · split
      · exact h
      · exact h
    · exact h

theorem runSteps_keeps_log (repo : ChannelRepository σn) (fuel : Nat)
    (request : reconcile.Request) (steps : List Step) (w : World σn)
    (h : LogKeepsFinalizer w.server) :
    LogKeepsFinalizer (runSteps repo fuel request steps w).server := by
  induction steps generalizing w with
  | nil => exact h
  | cons st rest ih =>
    show LogKeepsFinalizer (runSteps repo fuel request rest (step repo fuel request st w)).server
    exact ih _ (step_keeps_log repo fuel request st w h)

/-- C8, as amended: for every sequence of `Reconcile` invocations and actions of the hosting
system on a resource, starting with an empty record of writes, whatever the external service
and the transient failures of the store do, every resource state written by a status write
or by the finalizer-setting update carries the finalizer marker (so none of them has a
non-empty external id while the marker is absent), and every other write is the
finalizer-clearing update of the deletion path, which sends no finalizer. -/
theorem written_states_keep_finalizer (repo : ChannelRepository σn) (fuel : Nat)
    (request : reconcile.Request) (steps : List Step) (w : World σn)
    (hlog : w.server.written = []) :
    ∀ wr ∈ (runSteps repo fuel request steps w).server.written,
      (wr.status = true ∨ wr.sent.ObjectMeta.Finalizers = ["newrelic"] →
        hasFinalizer wr.stored) ∧
      (wr.status = false →
        wr.sent.ObjectMeta.Finalizers = ["newrelic"] ∨ wr.sent.ObjectMeta.Finalizers = []) := by
  have h0 : LogKeepsFinalizer w.server := by
    intro wr hwr
    rw [hlog] at hwr
    simp at hwr
  exact runSteps_keeps_log repo fuel request steps w h0

theorem written_states_keep_finalizer_witness :
    newWorld.server.written = [] ∧
      ∀ wr ∈ (runSteps assigningRepository 3 exampleRequest
          [Step.reconcile, Step.requestDeletion 100, Step.reconcile] newWorld).server.written,
        (wr.status = true ∨ wr.sent.ObjectMeta.Finalizers = ["newrelic"] →
          hasFinalizer wr.stored) ∧
        (wr.status = false →
          wr.sent.ObjectMeta.Finalizers = ["newrelic"] ∨
            wr.sent.ObjectMeta.Finalizers = []) :=
  ⟨rfl, written_states_keep_finalizer assigningRepository 3 exampleRequest
    [Step.reconcile, Step.requestDeletion 100, Step.reconcile] newWorld rfl⟩

/-- C8, as stated, fails: the resource `newChannel` starts with an empty external id and no
finalizer; a reconcile syncs it under the external id 7, the hosting system requests its
deletion, and the next reconcile takes the deletion path, whose finalizer-clearing update
writes a resource state with the external id 7 and no finalizer. -/
theorem finalizer_clearing_update_keeps_external_id :
    newChannel.Status.NewrelicChannelId = none ∧ newChannel.ObjectMeta.Finalizers = [] ∧
      newWorld.server.stored = some newChannel ∧
      ¬ (∀ wr ∈ (runSteps assigningRepository 3 exampleRequest
          [Step.reconcile, Step.requestDeletion 100, Step.reconcile] newWorld).server.written,
        wr.stored.Status.NewrelicChannelId ≠ none → hasFinalizer wr.stored) ∧
      ∃ wr ∈ (runSteps assigningRepository 3 exampleRequest
          [Step.reconcile, Step.requestDeletion 100, Step.reconcile] newWorld).server.written,
        wr.status = false ∧ wr.sent.ObjectMeta.Finalizers = [] ∧
          wr.stored.Status.NewrelicChannelId = some 7 ∧
          wr.stored.ObjectMeta.Finalizers = [] := by
  decide

end controller

namespace controller

open types v1alpha1 apiserver

variable {σ : Type}

/-! ### The live path of `Reconcile` -/

/-- The run of `Reconcile` for a fetched resource that is not being deleted: the fetch, the
policy selection, then the branch `saveChannel` on the channel built from both. -/
theorem Reconcile_eq_of_live (k8s : K8sClient σ) (newrelic : ChannelRepository σ)
    (request : reconcile.Request) (s s1 s2 : σ) (inst : NotificationChannel)
    (policies : AlertPolicyList)
    (hget : k8s.GetChannel request.NamespacedName s = (Except.ok inst, s1))
    (hpol : k8s.GetPolicies inst s1 = (Except.ok policies, s2))
    (hlive : IsDeleted inst = false) :
    Reconcile k8s newrelic request s =
      ⟨⟨Call.GetChannel request.NamespacedName, none⟩ :: ⟨Call.GetPolicies inst, none⟩ ::
          (saveChannel k8s newrelic (reconciledChannel inst policies) inst s2).trace,
        (saveChannel k8s newrelic (reconciledChannel inst policies) inst s2).state,
        (saveChannel k8s newrelic (reconciledChannel inst policies) inst s2).result⟩ := by
  unfold Reconcile
  simp [hget, hpol, hlive, failureOf, reconciledChannel]

/-- C11: for every resource that is not being deleted and for which every collaborator call
succeeds, `Reconcile` performs, each once and in this order, the fetch, the policy
selection, the finalizer-setting update, the status write Pending with the current external
id and the computed config version, the external save, and the status write Ready with the
external id the save left and the same config version; then it returns success. -/
theorem Reconcile_live_success_sequence (k8s : K8sClient σ) (newrelic : ChannelRepository σ)
    (request : reconcile.Request) (s s1 s2 s3 s4 s5 s6 : σ)
    (inst inst1 inst2 inst3 : NotificationChannel) (policies : AlertPolicyList)
    (channel2 : domain.NotificationChannel)
    (hget : k8s.GetChannel request.NamespacedName s = (Except.ok inst, s1))
    (hpol : k8s.GetPolicies inst s1 = (Except.ok policies, s2))
    (hlive : IsDeleted inst = false)
    (hfin : k8s.SetFinalizer inst s2 = (Except.ok inst1, s3))
    (hpending : k8s.UpdateChannelStatus
      (SetStatus inst1 (NewChannelPending (GetStatus inst).NewrelicChannelId
        (reconciledChannel inst policies).Channel.Configuration.Version)) s3 =
        (Except.ok inst2, s4))
    (hsave : newrelic.Save (reconciledChannel inst policies) s4 =
      ((Except.ok (), channel2), s5))
    (hready : k8s.UpdateChannelStatus
      (SetStatus inst2 (NewChannelReady channel2.Channel.Id
        (reconciledChannel inst policies).Channel.Configuration.Version)) s5 =
        (Except.ok inst3, s6)) :
    (Reconcile k8s newrelic request s).trace =
        [⟨Call.GetChannel request.NamespacedName, none⟩,
          ⟨Call.GetPolicies inst, none⟩,
          ⟨Call.SetFinalizer inst, none⟩,
          ⟨Call.UpdateChannelStatus
            (SetStatus inst1 (NewChannelPending (GetStatus inst).NewrelicChannelId
              (reconciledChannel inst policies).Channel.Configuration.Version)), none⟩,
          ⟨Call.Save (reconciledChannel inst policies), none⟩,
          ⟨Call.UpdateChannelStatus
            (SetStatus inst2 (NewChannelReady channel2.Channel.Id
              (reconciledChannel inst policies).Channel.Configuration.Version)), none⟩] ∧
      (Reconcile k8s newrelic request s).result = Except.ok { Requeue := false } ∧
      (Reconcile k8s newrelic request s).state = s6 := by
  have hid : (reconciledChannel inst policies).Channel.Id = (GetStatus inst).NewrelicChannelId :=
    rfl
  rw [Reconcile_eq_of_live k8s newrelic request s s1 s2 inst policies hget hpol hlive]
  unfold saveChannel
  simp only [hfin, hid, hpending, hsave, hready, failureOf, NewReconcileResult]
  simp

theorem Reconcile_live_success_sequence_witness :
    (Reconcile (channelClient 3) (externalRepository assigningRepository) exampleRequest
        newWorld).trace =
        [⟨Call.GetChannel exampleRequest.NamespacedName, none⟩,
          ⟨Call.GetPolicies newChannel, none⟩,
          ⟨Call.SetFinalizer newChannel, none⟩,
          ⟨Call.UpdateChannelStatus
            (SetStatus newChannel (NewChannelPending (GetStatus newChannel).NewrelicChannelId
              (reconciledChannel newChannel ⟨[]⟩).Channel.Configuration.Version)), none⟩,
          ⟨Call.Save (reconciledChannel newChannel ⟨[]⟩), none⟩,
          ⟨Call.UpdateChannelStatus
            (SetStatus (SetStatus newChannel (NewChannelPending none "#alerts"))
              (NewChannelReady (some 7)
                (reconciledChannel newChannel ⟨[]⟩).Channel.Configuration.Version)), none⟩] ∧
      (Reconcile (channelClient 3) (externalRepository assigningRepository) exampleRequest
        newWorld).result = Except.ok { Requeue := false } ∧
      (Reconcile (channelClient 3) (externalRepository assigningRepository) exampleRequest
        newWorld).state.server.stored =
        some
          { ObjectMeta := { newChannel.ObjectMeta with
              ResourceVersion := 4, Finalizers := ["newrelic"] },
            Spec := newChannel.Spec,
            Status := NewChannelReady (some 7) "#alerts" } :=
  ⟨(Reconcile_live_success_sequence (channelClient 3) (externalRepository assigningRepository)
      exampleRequest newWorld newWorld newWorld
      ((channelClient 3).SetFinalizer newChannel newWorld).2
      ((channelClient 3).UpdateChannelStatus
        (SetStatus newChannel (NewChannelPending none "#alerts"))
        ((channelClient 3).SetFinalizer newChannel newWorld).2).2
      ((channelClient 3).UpdateChannelStatus
        (SetStatus newChannel (NewChannelPending none "#alerts"))
        ((channelClient 3).SetFinalizer newChannel newWorld).2).2
      ((channelClient 3).UpdateChannelStatus
        (SetStatus (SetStatus newChannel (NewChannelPending none "#alerts"))
          (NewChannelReady (some 7) "#alerts"))
        ((channelClient 3).UpdateChannelStatus
          (SetStatus newChannel (NewChannelPending none "#alerts"))
          ((channelClient 3).SetFinalizer newChannel newWorld).2).2).2
      newChannel newChannel (SetStatus newChannel (NewChannelPending none "#alerts"))
      (SetStatus (SetStatus newChannel (NewChannelPending none "#alerts"))
        (NewChannelReady (some 7) "#alerts"))
      ⟨[]⟩
      { reconciledChannel newChannel ⟨[]⟩ with
        Channel := { (reconciledChannel newChannel ⟨[]⟩).Channel with Id := some 7 } }
      (by decide) (by decide) (by decide) (by decide) (by decide) (by decide) (by decide)).1,
    (Reconcile_live_success_sequence (channelClient 3) (externalRepository assigningRepository)
      exampleRequest newWorld newWorld newWorld
      ((channelClient 3).SetFinalizer newChannel newWorld).2
      ((channelClient 3).UpdateChannelStatus
        (SetStatus newChannel (NewChannelPending none "#alerts"))
        ((channelClient 3).SetFinalizer newChannel newWorld).2).2
      ((channelClient 3).UpdateChannelStatus
        (SetStatus newChannel (NewChannelPending none "#alerts"))
        ((channelClient 3).SetFinalizer newChannel newWorld).2).2
      ((channelClient 3).UpdateChannelStatus
        (SetStatus (SetStatus newChannel (NewChannelPending none "#alerts"))
          (NewChannelReady (some 7) "#alerts"))
        ((channelClient 3).UpdateChannelStatus
          (SetStatus newChannel (NewChannelPending none "#alerts"))
          ((channelClient 3).SetFinalizer newChannel newWorld).2).2).2
      newChannel newChannel (SetStatus newChannel (NewChannelPending none "#alerts"))
      (SetStatus (SetStatus newChannel (NewChannelPending none "#alerts"))
        (NewChannelReady (some 7) "#alerts"))
      ⟨[]⟩
      { reconciledChannel newChannel ⟨[]⟩ with
        Channel := { (reconciledChannel newChannel ⟨[]⟩).Channel with Id := some 7 } }
      (by decide) (by decide) (by decide) (by decide) (by decide) (by decide) (by decide)).2.1,
    by decide⟩

/-- C12, as amended: for every resource that is not being deleted and for which the external
save fails with error `e`, `Reconcile` sets the status to Error carrying `e` and hands it to
the status updater right after the failed save, writes no status Ready, and returns `e`
when that status write succeeds; when the status write fails, it returns the failure of the
status write. -/
theorem Reconcile_save_failure (k8s : K8sClient σ) (newrelic : ChannelRepository σ)
    (request : reconcile.Request) (s s1 s2 s3 s4 s5 : σ)
    (inst inst1 inst2 : NotificationChannel) (policies : AlertPolicyList)
    (channel2 : domain.NotificationChannel) (e : Error)
    (hget : k8s.GetChannel request.NamespacedName s = (Except.ok inst, s1))
    (hpol : k8s.GetPolicies inst s1 = (Except.ok policies, s2))
    (hlive : IsDeleted inst = false)
    (hfin : k8s.SetFinalizer inst s2 = (Except.ok inst1, s3))
    (hpending : k8s.UpdateChannelStatus
      (SetStatus inst1 (NewChannelPending (GetStatus inst).NewrelicChannelId
        (reconciledChannel inst policies).Channel.Configuration.Version)) s3 =
        (Except.ok inst2, s4))
    (hsave : newrelic.Save (reconciledChannel inst policies) s4 =
      ((Except.error (Failure.err e), channel2), s5)) :
    (Reconcile k8s newrelic request s).trace =
        [⟨Call.GetChannel request.NamespacedName, none⟩,
          ⟨Call.GetPolicies inst, none⟩,
          ⟨Call.SetFinalizer inst, none⟩,
          ⟨Call.UpdateChannelStatus
            (SetStatus inst1 (NewChannelPending (GetStatus inst).NewrelicChannelId
              (reconciledChannel inst policies).Channel.Configuration.Version)), none⟩,
          ⟨Call.Save (reconciledChannel inst policies), some (Failure.err e)⟩,
          ⟨Call.UpdateChannelStatus
            (SetStatus inst2 (NewChannelError channel2.Channel.Id e)),
            failureOf (k8s.UpdateChannelStatus
              (SetStatus inst2 (NewChannelError channel2.Channel.Id e)) s5).1⟩] ∧
      (SetStatus inst2 (NewChannelError channel2.Channel.Id e)).Status.State = "Error" ∧
      (SetStatus inst2 (NewChannelError channel2.Channel.Id e)).Status.LastError =
        some e.Message ∧
      (Reconcile k8s newrelic request s).result =
        (match (k8s.UpdateChannelStatus
            (SetStatus inst2 (NewChannelError channel2.Channel.Id e)) s5).1 with
          | Except.error f => Except.error f
          | Except.ok _ => Except.error (Failure.err e)) ∧
      ∀ ev ∈ (Reconcile k8s newrelic request s).trace, ∀ written : NotificationChannel,
        ev.call = Call.UpdateChannelStatus written → written.Status.State ≠ "Ready" := by
  have hid : (reconciledChannel inst policies).Channel.Id = (GetStatus inst).NewrelicChannelId :=
    rfl
  rw [Reconcile_eq_of_live k8s newrelic request s s1 s2 inst policies hget hpol hlive]
  unfold saveChannel
  simp only [hfin, hid, hpending, hsave, failureOf, NewReconcileResult]
  cases hup : (k8s.UpdateChannelStatus
      (SetStatus inst2 (NewChannelError channel2.Channel.Id e)) s5).1 with
  | error f =>
    refine ⟨by simp, rfl, rfl, by simp, ?_⟩
    intro ev hev written hcall
    simp at hev
    rcases hev with h | h | h | h | h | h <;> subst h <;> simp at hcall <;> subst hcall <;>
      simp [SetStatus, NewChannelPending, NewChannelError]
  | ok inst3 =>
    refine ⟨by simp, rfl, rfl, by simp, ?_⟩
    intro ev hev written hcall
    simp at hev
    rcases hev with h | h | h | h | h | h <;> subst h <;> simp at hcall <;> subst hcall <;>
      simp [SetStatus, NewChannelPending, NewChannelError]

theorem Reconcile_save_failure_witness :
    (Reconcile (channelClient 3) (externalRepository unavailableRepository) exampleRequest
        newWorld).result =
        Except.error (Failure.err (errors.New "service unavailable")) ∧
      (Reconcile (channelClient 3) (externalRepository unavailableRepository) exampleRequest
        newWorld).state.server.stored =
        some
          { ObjectMeta := { newChannel.ObjectMeta with
              ResourceVersion := 4, Finalizers := ["newrelic"] },
            Spec := newChannel.Spec,
            Status := NewChannelError none (errors.New "service unavailable") } :=
  ⟨((Reconcile_save_failure (channelClient 3) (externalRepository unavailableRepository)
      exampleRequest newWorld newWorld newWorld
      ((channelClient 3).SetFinalizer newChannel newWorld).2
      ((channelClient 3).UpdateChannelStatus
        (SetStatus newChannel (NewChannelPending none "#alerts"))
        ((channelClient 3).SetFinalizer newChannel newWorld).2).2
      ((channelClient 3).UpdateChannelStatus
        (SetStatus newChannel (NewChannelPending none "#alerts"))
        ((channelClient 3).SetFinalizer newChannel newWorld).2).2
      newChannel newChannel (SetStatus newChannel (NewChannelPending none "#alerts"))
      ⟨[]⟩ (reconciledChannel newChannel ⟨[]⟩) (errors.New "service unavailable")
      (by decide) (by decide) (by decide) (by decide) (by decide) (by decide)).2.2.2.1).trans
      (by decide),
    by decide⟩

/-- C12, as stated, fails: the resource `newChannel` is not being deleted, the external save
fails with the error "service unavailable", `Reconcile` hands the Error status to the status
updater, the write of that status fails with "etcd unavailable", and `Reconcile` returns the
error of the status write, not the error of the save. -/
theorem Reconcile_save_failure_returns_status_error :
    IsDeleted newChannel = false ∧
      (Reconcile (channelClient 3) (externalRepository unavailableRepository) exampleRequest
        flakyWorld).trace.map (fun ev => ev.failure) =
        [none, none, none, none,
          some (Failure.err (errors.New "service unavailable")),
          some (Failure.err (errors.New "etcd unavailable"))] ∧
      (Reconcile (channelClient 3) (externalRepository unavailableRepository) exampleRequest
        flakyWorld).result = Except.error (Failure.err (errors.New "etcd unavailable")) ∧
      (Reconcile (channelClient 3) (externalRepository unavailableRepository) exampleRequest
        flakyWorld).result ≠ Except.error (Failure.err (errors.New "service unavailable")) := by
  decide

end controller

namespace k8s

open types v1alpha1 client_go

variable {S T σ : Type}

/-! ### Any number of conflicts -/

theorem getLast?_cons_of_some {α : Type} (a x : α) (l : List α) (h : l.getLast? = some x) :
    (a :: l).getLast? = some x := by
  cases l with
  | nil => simp at h
  | cons b rest => simpa [List.getLast?_cons_cons] using h

/-- After `n` conflicts in a row `updateWithRetries` has made `n + 1` write attempts and `n`
re-fetches, its last call is the write attempt that was not rejected with a conflict, and
its result is the outcome of that attempt. -/
theorem updateWithRetries_after_conflicts (c : Client (Object S T) σ) (key : NamespacedName)
    (n fuel : Nat) (policy : Object S T) (s : σ)
    (h : conflictsThen c key n policy s = true) (hfuel : n < fuel) :
    ((updateWithRetries c fuel key policy s).trace.filter isStatusUpdate).length = n + 1 ∧
      ((updateWithRetries c fuel key policy s).trace.filter isGet).length = n ∧
      (updateWithRetries c fuel key policy s).trace.length = 2 * n + 1 ∧
      ∃ last, (updateWithRetries c fuel key policy s).trace.getLast? = some last ∧
        isStatusUpdate last = true ∧
        (∀ e, last.err = some e → errors.IsConflict e = false ∧
          (updateWithRetries c fuel key policy s).result = Except.error (Failure.err e)) ∧
        (last.err = none → ∃ obj, (updateWithRetries c fuel key policy s).result = Except.ok obj) := by
  induction n generalizing fuel policy s with
  | zero =>
    obtain ⟨fuel2, rfl⟩ : ∃ k, fuel = k + 1 := ⟨fuel - 1, by omega⟩
    rw [updateWithRetries]
    rw [conflictsThen] at h
    simp only []
    cases herr : (c.StatusUpdate policy s).1.1 with
    | none =>
      simp only []
      refine ⟨by simp [isStatusUpdate], by simp [isGet], by simp, _, rfl, rfl, ?_, ?_⟩
      · intro e he
        simp at he
      · intro _
        exact ⟨_, rfl⟩
    | some err =>
      simp only [herr] at h
      have hnc : errors.IsConflict err = false := by simpa using h
      simp only [hnc]
      refine ⟨by simp [isStatusUpdate], by simp [isGet], by simp, _, rfl, rfl, ?_, ?_⟩
      · intro e he
        simp at he
        subst he
        exact ⟨hnc, by simp⟩
      · intro hnone
        simp at hnone
  | succ n ih =>
    obtain ⟨fuel2, rfl⟩ : ∃ k, fuel = k + 1 := ⟨fuel - 1, by omega⟩
    rw [updateWithRetries]
    rw [conflictsThen] at h
    simp only []
    cases herr : (c.StatusUpdate policy s).1.1 with
    | none =>
      simp [herr] at h
    | some err =>
      simp only [herr, Bool.and_eq_true] at h
      obtain ⟨hconf, hrest⟩ := h
      simp only [hconf, if_true, GetPolicy_eq]
      cases hget : (c.Get key (c.StatusUpdate policy s).2).1 with
      | error gerr =>
        simp [hget] at hrest
      | ok serverPolicy =>
        simp only [hget] at hrest
        simp only []
        obtain ⟨h1, h2, h3, last, hlast, hsu, herrcase, hokcase⟩ :=
          ih fuel2 { serverPolicy with Status := policy.Status }
            (c.Get key (c.StatusUpdate policy s).2).2 hrest (by omega)
        refine ⟨?_, ?_, ?_, last, ?_, hsu, ?_, ?_⟩
        · simp [List.filter_cons, isStatusUpdate, h1]
        · simp [List.filter_cons, isStatusUpdate, isGet, h2]
        · simp [h3]
          omega
        · exact getLast?_cons_of_some _ _ _ (getLast?_cons_of_some _ _ _ hlast)
        · intro e he
          obtain ⟨hnc, hres⟩ := herrcase e he
          refine ⟨hnc, ?_⟩
          simp only [hres]
        · intro hnone
          obtain ⟨obj, hres⟩ := hokcase hnone
          rw [hres]
          exact ⟨_, rfl⟩

/-- C17: for every number `n` and every store that rejects the status write with a conflict
on the first `n` attempts and not on attempt `n + 1`, every re-fetch succeeding,
`updateWithRetries` (given at least `n + 1` attempts) ends after exactly `n + 1` write
attempts and `n` re-fetches, its last call being attempt `n + 1`, and returns the outcome of
that attempt: its error if it failed, no error if it succeeded. Whatever `n` is, it does not
give up: the retries never run into the bound. -/
theorem updateWithRetries_unbounded_retries (c : Client AlertPolicy σ) (key : NamespacedName)
    (n fuel : Nat) (policy : AlertPolicy) (s : σ)
    (h : conflictsThen c key n policy s = true) (hfuel : n < fuel) :
    ((updateWithRetries c fuel key policy s).trace.filter isStatusUpdate).length = n + 1 ∧
      ((updateWithRetries c fuel key policy s).trace.filter isGet).length = n ∧
      (updateWithRetries c fuel key policy s).trace.length = 2 * n + 1 ∧
      (∃ last, (updateWithRetries c fuel key policy s).trace.getLast? = some last ∧
        isStatusUpdate last = true ∧
        (∀ e, last.err = some e → errors.IsConflict e = false ∧
          (updateWithRetries c fuel key policy s).result = Except.error (Failure.err e)) ∧
        (last.err = none →
          ∃ obj, (updateWithRetries c fuel key policy s).result = Except.ok obj)) ∧
      (updateWithRetries c fuel key policy s).result ≠ Except.error Failure.outOfFuel := by
  obtain ⟨h1, h2, h3, last, hlast, hsu, herrcase, hokcase⟩ :=
    updateWithRetries_after_conflicts c key n fuel policy s h hfuel
  refine ⟨h1, h2, h3, ⟨last, hlast, hsu, herrcase, hokcase⟩, ?_⟩
  cases hle : last.err with
  | none =>
    obtain ⟨obj, hres⟩ := hokcase hle
    rw [hres]
    simp
  | some e =>
    rw [(herrcase e hle).2]
    simp

theorem updateWithRetries_unbounded_retries_witness :
    conflictsThen apiserver.client ⟨"default", "cpu-alerts"⟩ 2 stalePolicy contendedServer
        = true ∧
      ((updateWithRetries apiserver.client 3 ⟨"default", "cpu-alerts"⟩ stalePolicy
        contendedServer).trace.filter isStatusUpdate).length = 2 + 1 ∧
      ((updateWithRetries apiserver.client 3 ⟨"default", "cpu-alerts"⟩ stalePolicy
        contendedServer).trace.filter isGet).length = 2 ∧
      (updateWithRetries apiserver.client 3 ⟨"default", "cpu-alerts"⟩ stalePolicy
        contendedServer).result = Except.ok stalePolicy ∧
      (updateWithRetries apiserver.client 3 ⟨"default", "cpu-alerts"⟩ stalePolicy
        contendedServer).trace.map (fun ev => ev.err) =
        [some apiserver.conflict, none, some apiserver.conflict, none, none] :=
  ⟨by decide,
    (updateWithRetries_unbounded_retries apiserver.client ⟨"default", "cpu-alerts"⟩ 2 3
      stalePolicy contendedServer (by decide) (by decide)).1,
    (updateWithRetries_unbounded_retries apiserver.client ⟨"default", "cpu-alerts"⟩ 2 3
      stalePolicy contendedServer (by decide) (by decide)).2.1,
    by decide, by decide⟩

/-! ### The finalizer-setting update -/

theorem SetFinalizer_eq (c : Client (Object S T) σ) (policy : Object S T) (s : σ) :
    SetFinalizer c policy s =
      ⟨[⟨Call.Update
            { policy with ObjectMeta := { policy.ObjectMeta with Finalizers := ["newrelic"] } },
          (c.Update
            { policy with ObjectMeta := { policy.ObjectMeta with Finalizers := ["newrelic"] } }
            s).1.1⟩],
        (c.Update
          { policy with ObjectMeta := { policy.ObjectMeta with Finalizers := ["newrelic"] } }
          s).2,
        match (c.Update
          { policy with ObjectMeta := { policy.ObjectMeta with Finalizers := ["newrelic"] } }
          s).1.1 with
        | some err => Except.error (Failure.err err)
        | none => Except.ok ()⟩ := by
  unfold SetFinalizer
  simp only []
  split <;> simp_all

/-- C14, as amended: for every policy and every store, when the finalizer-setting update is
rejected with a conflict, `SetFinalizer` returns that conflict to its caller: the rejected
update is its only call, it does not re-fetch and does not retry. -/
theorem SetFinalizer_returns_conflict (c : Client AlertPolicy σ) (policy : AlertPolicy)
    (s : σ) (rejected : Error)
    (hrej : (c.Update
      { policy with ObjectMeta := { policy.ObjectMeta with Finalizers := ["newrelic"] } }
      s).1.1 = some rejected)
    (hconflict : errors.IsConflict rejected = true) :
    (SetFinalizer c policy s).result = Except.error (Failure.err rejected) ∧
      (SetFinalizer c policy s).trace =
        [⟨Call.Update
            { policy with ObjectMeta := { policy.ObjectMeta with Finalizers := ["newrelic"] } },
          some rejected⟩] ∧
      (SetFinalizer c policy s).state =
        (c.Update
          { policy with ObjectMeta := { policy.ObjectMeta with Finalizers := ["newrelic"] } }
          s).2 ∧
      ∃ e, (SetFinalizer c policy s).result = Except.error (Failure.err e) ∧
        errors.IsConflict e = true := by
  rw [SetFinalizer_eq]
  simp only [hrej]
  exact ⟨trivial, trivial, trivial, rejected, rfl, hconflict⟩

theorem SetFinalizer_returns_conflict_witness :
    (SetFinalizer apiserver.client stalePolicy exampleServer).result =
        Except.error (Failure.err apiserver.conflict) ∧
      (SetFinalizer apiserver.client stalePolicy exampleServer).trace.length = 1 ∧
      (SetFinalizer apiserver.client stalePolicy exampleServer).state.stored =
        some serverPolicy :=
  ⟨(SetFinalizer_returns_conflict apiserver.client stalePolicy exampleServer
      apiserver.conflict (by decide) (by decide)).1,
    by decide, by decide⟩

/-- C14, as stated, fails: the store holds the policy at resource version 2, the policy
passed in was read at version 1, the finalizer-setting update is rejected with a conflict,
and `SetFinalizer` returns that conflict error to its caller. -/
theorem SetFinalizer_conflict_reaches_caller :
    (apiserver.client.Update
        { stalePolicy with
          ObjectMeta := { stalePolicy.ObjectMeta with Finalizers := ["newrelic"] } }
        exampleServer).1.1 = some apiserver.conflict ∧
      errors.IsConflict apiserver.conflict = true ∧
      (SetFinalizer apiserver.client stalePolicy exampleServer).result =
        Except.error (Failure.err apiserver.conflict) := by
  decide

/-- C18, as amended: for every policy, the object `SetFinalizer` sends to the store carries
the marker `newrelic` as its only finalizer (the finalizers the policy already carried are
replaced, not kept), and every other field of the object is the same as in the policy passed
in. -/
theorem SetFinalizer_sends_marker_only (c : Client AlertPolicy σ) (policy : AlertPolicy)
    (s : σ) :
    (SetFinalizer c policy s).trace.map (fun ev => ev.call) =
      [Call.Update
        { ObjectMeta :=
            { Name := policy.ObjectMeta.Name,
              Namespace := policy.ObjectMeta.Namespace,
              ResourceVersion := policy.ObjectMeta.ResourceVersion,
              Finalizers := ["newrelic"],
              DeletionTimestamp := policy.ObjectMeta.DeletionTimestamp },
          Spec := policy.Spec,
          Status := policy.Status }] := by
  rw [SetFinalizer_eq]
  rfl

/-- C18, as stated, fails: the policy carries the finalizer `other.io/cleanup` of another
controller; the object `SetFinalizer` sends to the store carries `newrelic` only, and the
store, which accepts the update, no longer holds the other finalizer. -/
theorem SetFinalizer_drops_other_finalizers :
    "other.io/cleanup" ∈ foreignFinalizerPolicy.ObjectMeta.Finalizers ∧
      (SetFinalizer apiserver.client foreignFinalizerPolicy foreignFinalizerServer).trace =
        [⟨Call.Update
            { foreignFinalizerPolicy with
              ObjectMeta :=
                { foreignFinalizerPolicy.ObjectMeta with Finalizers := ["newrelic"] } },
          none⟩] ∧
      (∀ ev ∈ (SetFinalizer apiserver.client foreignFinalizerPolicy
          foreignFinalizerServer).trace,
        ∀ sent, ev.call = Call.Update sent →
          "other.io/cleanup" ∉ sent.ObjectMeta.Finalizers) ∧
      (SetFinalizer apiserver.client foreignFinalizerPolicy
          foreignFinalizerServer).state.stored.map (fun cur => cur.ObjectMeta.Finalizers) =
        some ["newrelic"] := by
  refine ⟨by decide, by decide, ?_, by decide⟩
  intro ev hev sent hcall
  have htrace : (SetFinalizer apiserver.client foreignFinalizerPolicy
      foreignFinalizerServer).trace =
      [⟨Call.Update
          { foreignFinalizerPolicy with
            ObjectMeta :=
              { foreignFinalizerPolicy.ObjectMeta with Finalizers := ["newrelic"] } },
        none⟩] := by decide
  rw [htrace] at hev
  simp at hev
  subst hev
  simp at hcall
  subst hcall
  decide

end k8s

namespace newrelic

open domain

variable {σ : Type}

/-! ### Status codes and the missing policy id -/

/-- C13, as amended: `saveConditions` has no not-found handling. Every response to a create
call that carries a status of 300 or more, a not-found response included, makes
`saveConditions` fail at that call, with an error that carries the response body, and no
call follows it. -/
theorem saveConditions_create_rejected_by_status (client : NewrelicClient σ)
    (policy : AlertPolicy) (s : σ) (before after : List Event) (ev : Event)
    (endpoint : Endpoint) (payload : NrqlCondition) (response : Response)
    (htrace : (saveConditions client policy s).trace = before ++ ev :: after)
    (hcall : ev.call = Call.PostJson endpoint payload)
    (hresp : ev.reply.response = some response)
    (hstatus : response.StatusCode ≥ 300) :
    (saveConditions client policy s).result =
        Except.error (Failure.err (errors.New response.Body)) ∧ after = [] := by
  have hfail : ev.failure = some (errors.New response.Body) := by
    unfold Event.failure
    rw [hcall]
    simp [responseError, hresp, hstatus]
  exact ⟨(saveConditions_aborts client policy s before after ev _ htrace hfail).2,
    (saveConditions_aborts client policy s before after ev _ htrace hfail).1⟩

theorem saveConditions_create_rejected_by_status_witness :
    (saveConditions notFoundCreateClient examplePolicy exampleStore).trace =
        [Event.mk (Call.Get (Endpoint.conditionsOfPolicy 5))
            (okReply 200 (Except.ok ⟨exampleExternal⟩)),
          Event.mk (Call.Delete (Endpoint.condition 2))
            (okReply 200 (Except.error (errors.New "not a condition list")))] ++
        Event.mk (Call.PostJson (Endpoint.conditionsUnderPolicy 5) ⟨cpuCondition⟩)
          ⟨some ⟨404, "policy not found", Except.error (errors.New "not a condition list")⟩,
            none⟩ :: [] ∧
      (saveConditions notFoundCreateClient examplePolicy exampleStore).result =
        Except.error (Failure.err (errors.New "policy not found")) :=
  ⟨by decide,
    (saveConditions_create_rejected_by_status notFoundCreateClient examplePolicy exampleStore
      [Event.mk (Call.Get (Endpoint.conditionsOfPolicy 5))
          (okReply 200 (Except.ok ⟨exampleExternal⟩)),
        Event.mk (Call.Delete (Endpoint.condition 2))
          (okReply 200 (Except.error (errors.New "not a condition list")))]
      []
      (Event.mk (Call.PostJson (Endpoint.conditionsUnderPolicy 5) ⟨cpuCondition⟩)
        ⟨some ⟨404, "policy not found", Except.error (errors.New "not a condition list")⟩,
          none⟩)
      (Endpoint.conditionsUnderPolicy 5) ⟨cpuCondition⟩
      ⟨404, "policy not found", Except.error (errors.New "not a condition list")⟩
      (by decide) rfl rfl (by decide)).1⟩

/-- C13, as stated, fails: a create call answered with a not-found response (status 404, no
client error) makes `saveConditions` fail with the response body as its error; the
not-found response is not treated as absence. -/
theorem saveConditions_not_found_create_fails :
    (saveConditions notFoundCreateClient examplePolicy exampleStore).trace.map
        (fun ev => (ev.call, ev.reply.response.map (fun r => r.StatusCode), ev.reply.err)) =
        [(Call.Get (Endpoint.conditionsOfPolicy 5), some 200, none),
          (Call.Delete (Endpoint.condition 2), some 200, none),
          (Call.PostJson (Endpoint.conditionsUnderPolicy 5) ⟨cpuCondition⟩, some 404, none)] ∧
      (saveConditions notFoundCreateClient examplePolicy exampleStore).result =
        Except.error (Failure.err (errors.New "policy not found")) ∧
      (saveConditions notFoundCreateClient examplePolicy exampleStore).result ≠
        Except.ok () := by
  decide

/-- C5 does not hold of the code at this input: the delete call for the external condition 2
is answered with a server error response (status 500, no client error), which is a failed
call, yet `saveConditions` does not return an error and does not stop: it goes on to issue
the two create calls and returns nil, and the store still holds condition 2. The status
check that `saveCondition` makes on its response is missing from `deleteConditions`. -/
theorem saveConditions_goes_on_after_rejected_delete :
    (saveConditions serverErrorDeleteClient examplePolicy exampleStore).trace.map
        (fun ev => (ev.call, ev.reply.response.map (fun r => r.StatusCode), ev.reply.err,
          ev.reply.failed)) =
        [(Call.Get (Endpoint.conditionsOfPolicy 5), some 200, none, false),
          (Call.Delete (Endpoint.condition 2), some 500, none, true),
          (Call.PostJson (Endpoint.conditionsUnderPolicy 5) ⟨cpuCondition⟩, some 201, none,
            false),
          (Call.PostJson (Endpoint.conditionsUnderPolicy 5) ⟨cpuCondition⟩, some 201, none,
            false)] ∧
      (saveConditions serverErrorDeleteClient examplePolicy exampleStore).result =
        Except.ok () ∧
      (5, (⟨some 2, "disk", [1], false⟩ : NrqlConditionBody)) ∈
        (saveConditions serverErrorDeleteClient examplePolicy exampleStore).state.entries := by
  decide

/-- C15, as amended: `saveConditions` needs the external id of the policy. For a policy
whose external id is absent it issues no external call at all (no query, no delete, no
create) and does not return success: the missing id is dereferenced before the query. For a
policy whose external id is known and whose stored external collection is empty, when every
call issued succeeds, it issues no delete call and one create call per desired condition, in
order, and returns nil. -/
theorem saveConditions_needs_policy_id (client : NewrelicClient σ) (policy : AlertPolicy)
    (s : σ) :
    (policy.Policy.Id = none →
        (saveConditions client policy s).trace = [] ∧
        (saveConditions client policy s).state = s ∧
        (saveConditions client policy s).result = Except.error Failure.nilDereference) ∧
      (∀ policyId : Int, policy.Policy.Id = some policyId →
        (getConditions client policyId s).result = Except.ok ⟨[]⟩ →
        (∀ ev ∈ (saveConditions client policy s).trace, ev.failure = none) →
        (saveConditions client policy s).result = Except.ok () ∧
        deleteCalls (saveConditions client policy s).trace = [] ∧
        createCalls (saveConditions client policy s).trace =
          policy.NrqlConditions.map
            (fun d => Call.PostJson (Endpoint.conditionsUnderPolicy policyId) d)) := by
  constructor
  · intro hnone
    unfold saveConditions
    simp [hnone]
  · intro policyId hid hget hsucc
    have h := saveConditions_success client policy s policyId ⟨[]⟩ hid hget
      (by intro c hc; simp at hc) hsucc
    refine ⟨h.1, ?_, ?_⟩
    · have h2 := h.2.1
      simpa using h2
    · rw [h.2.2.1]
      congr 1
      rw [List.filter_eq_self]
      intro d _
      simp [NewNrqlConditionSet, NrqlConditionSet.Contains]

theorem saveConditions_needs_policy_id_witness :
    ((saveConditions storeClient unsyncedPolicy emptyStore).trace = [] ∧
        (saveConditions storeClient unsyncedPolicy emptyStore).state = emptyStore ∧
        (saveConditions storeClient unsyncedPolicy emptyStore).result =
          Except.error Failure.nilDereference) ∧
      ((saveConditions storeClient examplePolicy emptyStore).result = Except.ok () ∧
        deleteCalls (saveConditions storeClient examplePolicy emptyStore).trace = [] ∧
        createCalls (saveConditions storeClient examplePolicy emptyStore).trace =
          examplePolicy.NrqlConditions.map
            (fun d => Call.PostJson (Endpoint.conditionsUnderPolicy 5) d)) :=
  ⟨(saveConditions_needs_policy_id storeClient unsyncedPolicy emptyStore).1 (by decide),
    (saveConditions_needs_policy_id storeClient examplePolicy emptyStore).2 5 (by decide)
      (by decide) (by decide)⟩

/-- C15, as stated, fails: the policy `unsyncedPolicy` has no external id and one desired
condition; `saveConditions` ends in a nil dereference instead of returning nil, and issues
no create call (indeed no call at all), although the policy desires one condition. -/
theorem saveConditions_fails_on_missing_policy_id :
    unsyncedPolicy.Policy.Id = none ∧ unsyncedPolicy.NrqlConditions.length = 1 ∧
      (saveConditions storeClient unsyncedPolicy emptyStore).result =
        Except.error Failure.nilDereference ∧
      (saveConditions storeClient unsyncedPolicy emptyStore).result ≠ Except.ok () ∧
      (createCalls (saveConditions storeClient unsyncedPolicy emptyStore).trace).length = 0 := by
  decide

end newrelic
